import Mathlib

/-!
Verification development for the feature-channel propagation core of the
flexnas repository (graph node classification, the three worklist passes, and
the feature-calculator objects).

The data model shallowly embeds torch.fx graphs: a graph is a list of nodes,
a node carries its opcode, its ordered list of input-node indices
(all_input_nodes), its positional and keyword arguments, and the externally
populated static shape descriptor (meta tensor_meta.shape).  The module table
of the parent GraphModule is folded into the opcode: a call_module node
directly carries the resolved concrete layer type, which is the only use the
source makes of the parent module.  Mutable node metadata written by the
passes is modelled as explicit maps from node index to an optional value.
-/

/-- Resolved concrete layer type of a call_module node
(what type(parent.get_submodule(n.target)) yields in the source). -/
inductive ModuleType
  | conv1d | conv2d | linear
  | batchNorm1d | batchNorm2d
  | avgPool1d | avgPool2d | maxPool1d
  | dropout | reluMod | relu6Mod | constantPad1d | constantPad2d
  | otherModule (name : String)
deriving DecidableEq, Repr

/-- Identity of a call_function target. -/
inductive FuncTarget
  | torchAdd | operatorAdd | torchSub | operatorSub
  | fRelu | fRelu6 | fLogSoftmax
  | torchFlatten | torchCat | torchSqueeze
  | otherFunction (name : String)
deriving DecidableEq, Repr

/-- Node opcode, mirroring fx.Node.op together with the resolved target. -/
inductive OpKind
  | placeholder
  | output
  | callModule (m : ModuleType)
  | callFunction (f : FuncTarget)
  | callMethod (name : String)
  | getAttr
deriving DecidableEq, Repr

/-- A positional or keyword argument of a node: a reference to another node,
an integer literal, or Python None. -/
inductive Arg
  | anode (i : Nat)
  | aint (z : Int)
  | anone
deriving DecidableEq, Repr

/-- One fx graph node.  inputs is all_input_nodes (ordered indices);
args and kwargs are the raw call arguments (args position 0 holds the self
tensor for call_method nodes, as in fx); shape is the externally populated
static shape descriptor meta tensor_meta.shape, when present. -/
structure Node where
  op : OpKind
  inputs : List Nat
  args : List Arg
  kwargs : List (String × Arg)
  shape : Option (List Nat)
deriving DecidableEq, Repr

/-- A graph is the ordered node list; a node is referenced by its index. -/
abbrev Graph := List Node

/-- Inputs of the node at index j (empty for an out-of-range index). -/
def nodeInputs (g : Graph) (j : Nat) : List Nat :=
  match g.get? j with
  | some nd => nd.inputs
  | none => []

/-- Embeds utils.fx_to_nx_graph: the edge list of the DiGraph, one edge
(i, n) for every node n and every i in n.all_input_nodes, inserted in node
order. -/
def fx_to_nx_graph (g : Graph) : List (Nat × Nat) :=
  (List.range g.length).flatMap (fun j => (nodeInputs g j).map (fun i => (i, j)))

/-- Successor indices of node i in the nx digraph: the consumers of i, in
node order (nx DiGraph successors follow edge insertion order, and
fx_to_nx_graph inserts edges iterating nodes in graph order). -/
def successors (g : Graph) (i : Nat) : List Nat :=
  (List.range g.length).filter (fun j => (nodeInputs g j).contains i)

/-- Embeds model_graph.get_input_nodes: indices of all placeholder nodes, in
graph order. -/
def get_input_nodes (g : Graph) : List Nat :=
  (List.range g.length).filter
    (fun j => match g.get? j with
      | some nd => nd.op == .placeholder
      | none => false)

/-- Embeds graph/utils.try_get_args: first n.args at the positional index,
then n.kwargs at the keyword (a stored None also falls back), else the
default. -/
def try_get_args (n : Node) (args_idx : Nat) (kwargs_str : String) (dflt : Arg) : Arg :=
  if args_idx < n.args.length then n.args.getD args_idx dflt
  else
    match (n.kwargs.find? (fun p => p.1 == kwargs_str)).map (fun p => p.2) with
    | some a => if a = Arg.anone then dflt else a
    | none => dflt

/-- Embeds model_graph.is_zero_or_one_input_op. -/
def is_zero_or_one_input_op (n : Node) : Bool :=
  n.inputs.length ≤ 1

/-- Embeds model_graph.is_shared_input_features_op: multi-input add or sub
(torch.add, operator.add, torch.sub, operator.sub). -/
def is_shared_input_features_op (n : Node) : Bool :=
  if is_zero_or_one_input_op n then false
  else
    match n.op with
    | .callFunction .torchAdd => true
    | .callFunction .operatorAdd => true
    | .callFunction .torchSub => true
    | .callFunction .operatorSub => true
    | _ => false

/-- Embeds model_graph.is_features_defining_op: placeholder with no inputs,
or a Conv1d, Conv2d or Linear call_module. -/
def is_features_defining_op (n : Node) : Bool :=
  match n.op with
  | .placeholder => n.inputs.length == 0
  | .callModule m =>
      m == .conv1d || m == .conv2d || m == .linear
  | _ => false

/-- Embeds model_graph.is_features_propagating_op: the output node, the
listed channel-preserving call_module layers, or F.relu, F.relu6,
F.log_softmax call_function targets. -/
def is_features_propagating_op (n : Node) : Bool :=
  match n.op with
  | .output => true
  | .callModule m =>
      m == .batchNorm1d || m == .batchNorm2d || m == .avgPool1d ||
      m == .avgPool2d || m == .maxPool1d || m == .dropout ||
      m == .reluMod || m == .relu6Mod || m == .constantPad1d ||
      m == .constantPad2d
  | .callFunction f =>
      f == .fRelu || f == .fRelu6 || f == .fLogSoftmax
  | _ => false

/-- Embeds model_graph.is_flatten: the flatten call_method or torch.flatten
call_function. -/
def is_flatten (n : Node) : Bool :=
  match n.op with
  | .callMethod s => s == "flatten"
  | .callFunction .torchFlatten => true
  | _ => false

/-- Modelled from the spec: inspection.is_squeeze is imported by the pass
module but the inspection file is not under src.  Spec 4.2 lists is_flatten
and is_squeeze as the two reshape predicates; modelled mirroring is_flatten:
the squeeze call_method or torch.squeeze call_function. -/
def is_squeeze (n : Node) : Bool :=
  match n.op with
  | .callMethod s => s == "squeeze"
  | .callFunction .torchSqueeze => true
  | _ => false

/-- Embeds model_graph.is_concatenate (the channel concatenation predicate
the pass module uses under the name is_features_concatenate): torch.cat. -/
def is_features_concatenate (n : Node) : Bool :=
  match n.op with
  | .callFunction .torchCat => true
  | _ => false

/-- Modelled from the spec: inspection.is_untouchable_op is not under src.
Spec 4.2 calls it a structural flag for downstream search logic; it is
written into node metadata by the first pass and never read by any of the
three passes, so it is modelled as a fixed predicate. -/
def is_untouchable_op (_n : Node) : Bool :=
  false

/-- The eight classification flags written into node metadata by the first
pass (annotation.add_node_properties lines 41 to 48). -/
structure NodeFlags where
  features_propagating : Bool
  features_defining : Bool
  shared_input_features : Bool
  flatten : Bool
  squeeze : Bool
  features_concatenate : Bool
  untouchable : Bool
  zero_or_one_input : Bool
deriving DecidableEq, Repr

/-- The eight predicate results for one node, exactly as the first pass
writes them. -/
def nodeProperties (n : Node) : NodeFlags :=
  { features_propagating := is_features_propagating_op n
    features_defining := is_features_defining_op n
    shared_input_features := is_shared_input_features_op n
    flatten := is_flatten n
    squeeze := is_squeeze n
    features_concatenate := is_features_concatenate n
    untouchable := is_untouchable_op n
    zero_or_one_input := is_zero_or_one_input_op n }

/-- Modelled from the spec: the features_calculation module (imported by the
pass module) is not under src.  Spec 3 gives the closed variant set of
calculator value objects: Const (fixed count), Flatten transform (upstream
reference plus integer multiplier) and Concat combiner (ordered upstream
references, value the sum); propagation reuses the upstream object itself,
so no separate passthrough variant exists. -/
inductive FeaturesCalculator
  | const (features : Nat)
  | flattenCalc (prev : FeaturesCalculator) (multiplier : Nat)
  | concatCalc (prevs : List FeaturesCalculator)

mutual

/-- Modelled from the spec: the resolved channel count of a calculator
(spec 3: Const yields its fixed count, Flatten multiplies the upstream
value, Concat sums its upstream values). -/
def FeaturesCalculator.features : FeaturesCalculator → Nat
  | .const k => k
  | .flattenCalc p m => p.features * m
  | .concatCalc l => featuresSum l

/-- Sum of the resolved values of a calculator list. -/
def featuresSum : List FeaturesCalculator → Nat
  | [] => 0
  | c :: cs => c.features + featuresSum cs

end

/-- Structural equality decision for calculators (needed because the nested
list field blocks automatic derivation). -/
def FeaturesCalculator.beq : FeaturesCalculator → FeaturesCalculator → Bool
  | .const a, .const b => a == b
  | .flattenCalc p m, .flattenCalc q k => FeaturesCalculator.beq p q && m == k
  | .concatCalc l, .concatCalc r => beqList l r
  | _, _ => false
where
  beqList : List FeaturesCalculator → List FeaturesCalculator → Bool
  | [], [] => true
  | a :: as, b :: bs => FeaturesCalculator.beq a b && beqList as bs
  | _, _ => false

/-- The per-node back reference input_features_set_by: a single node, or the
ordered predecessor list on a concatenation node. -/
inductive SetBy
  | single (i : Nat)
  | several (l : List Nat)
deriving DecidableEq, Repr

/-- Error exits of the passes.  unsupportedNode stands for the ValueError
"Unsupported node", squeezeNoDim for the ValueError "Squeeze without dim not
supported", flattenBatch and squeezeBatch for the two batch-reshape
AssertionError exits, and crash for Python exceptions outside the documented
taxonomy (KeyError, IndexError, TypeError on malformed metadata). -/
inductive PassError
  | unsupportedNode (i : Nat)
  | squeezeNoDim (i : Nat)
  | flattenBatch (i : Nat)
  | squeezeBatch (i : Nat)
  | crash (i : Nat)
deriving DecidableEq, Repr

/-- Node metadata written by a pass: a map from node index to the stored
value, absent where the pass has not written. -/
def MetaMap (α : Type) : Type := Nat → Option α

/-- The empty metadata map. -/
def emptyMeta {α : Type} : MetaMap α := fun _ => none

/-- Write one entry of a metadata map. -/
def mset {α : Type} (m : MetaMap α) (i : Nat) (v : α) : MetaMap α :=
  fun j => if j = i then some v else m j

/-- The shared worklist skeleton of the three passes: pop the queue head,
run the loop body on it, then append its successors to the queue tail when
the body asks for it (the feature-calculator pass skips that append on a
deferred node, the other two passes always append).  Fuel bounds the number
of iterations; leftover queue is returned when fuel runs out, so a completed
run is one that returns an empty queue. -/
def runLoop (g : Graph) (body : Nat → σ → Except PassError (σ × Bool)) :
    Nat → List Nat → σ → Except PassError (List Nat × σ)
  | 0, q, st => .ok (q, st)
  | _ + 1, [], st => .ok ([], st)
  | fuel + 1, n :: rest, st =>
    match body n st with
    | .error e => .error e
    | .ok (st', app) =>
        runLoop g body fuel (rest ++ (if app then successors g n else [])) st'

/-- Loop body of annotation.add_node_properties (lines 38 to 51): write the
eight predicate results into the node metadata and enqueue the successors. -/
def nodePropsBody (g : Graph) (i : Nat) (st : MetaMap NodeFlags) :
    Except PassError (MetaMap NodeFlags × Bool) :=
  match g.get? i with
  | none => .error (.crash i)
  | some nd => .ok (mset st i (nodeProperties nd), true)

/-- Embeds annotation.add_node_properties: worklist seeded with the input
nodes, writing all eight flags on every visited node.  st0 is the metadata
the graph already carries when the pass starts. -/
def add_node_properties (g : Graph) (st0 : MetaMap NodeFlags) (fuel : Nat) :
    Except PassError (List Nat × MetaMap NodeFlags) :=
  runLoop g (nodePropsBody g) fuel (get_input_nodes g) st0

/-- A caller-supplied extension rule: given the node, produce a calculator
or no opinion. -/
abbrev ExtraRule := Node → Option FeaturesCalculator

/-- First opinion of the ordered extension-rule list (annotation.py lines
81 to 85). -/
def firstRule : List ExtraRule → Node → Option FeaturesCalculator
  | [], _ => none
  | r :: rs, nd =>
    match r nd with
    | some fc => some fc
    | none => firstRule rs nd

/-- Python slice input_shape[2:e] over the shape list (annotation.py line
100): elements from index 2 up to the exclusive stop, a negative stop
counting from the end. -/
def pySliceFrom2 (l : List Nat) (e : Int) : List Nat :=
  let len : Int := l.length
  let stop := if e < 0 then len + e else e
  (l.take (max 0 (min stop len)).toNat).drop 2

/-- Product of a shape slice (math.prod). -/
def natProd (l : List Nat) : Nat :=
  l.foldl (· * ·) 1

/-- Gather the stored calculators of a node list, none when any is
missing. -/
def gatherCalcs (st : MetaMap FeaturesCalculator) :
    List Nat → Option (List FeaturesCalculator)
  | [] => some []
  | p :: ps =>
    match st p, gatherCalcs st ps with
    | some c, some cs => some (c :: cs)
    | _, _ => none

/-- The calculator-construction step of annotation.add_features_calculator
(lines 80 to 143), run once the skip check has passed: extension rules
first, then flatten, squeeze, concatenate, shared-input, features-defining
and features-propagating in that order, else the unsupported-node error.
Reads the stored calculators of the predecessors through cmap. -/
def calcStep (g : Graph) (extraRules : List ExtraRule) (i : Nat) (nd : Node)
    (flags : NodeFlags) (cmap : Nat → Option FeaturesCalculator) :
    Except PassError FeaturesCalculator :=
  match firstRule extraRules nd with
  | some fc => .ok fc
  | none =>
    if flags.flatten then
      match nd.inputs with
      | [] => .error (.crash i)
      | p :: _ =>
        match cmap p, (g.get? p).bind Node.shape with
        | some ifc, some ishape =>
          match try_get_args nd 1 "start_dim" (.aint 0),
                try_get_args nd 2 "end_dim" (.aint (-1)) with
          | .aint sd, .aint ed =>
            if sd = 0 ∨ (ishape.length : Int) - sd = 0 then
              .error (.flattenBatch i)
            else if sd = 1 ∨ (ishape.length : Int) - sd = 1 then
              let flattened_size :=
                if ed ≠ -1 then natProd (pySliceFrom2 ishape ed)
                else natProd (ishape.drop 2)
              .ok (.flattenCalc ifc flattened_size)
            else .ok ifc
          | _, _ => .error (.crash i)
        | _, _ => .error (.crash i)
    else if flags.squeeze then
      match nd.inputs with
      | [] => .error (.crash i)
      | p :: _ =>
        match cmap p, (g.get? p).bind Node.shape with
        | some ifc, some ishape =>
          match try_get_args nd 1 "dim" .anone with
          | .anone => .error (.squeezeNoDim i)
          | .aint d =>
            if d = 0 ∨ (ishape.length : Int) - d = 0 then
              .error (.squeezeBatch i)
            else if d = 1 ∨ (ishape.length : Int) - d = 1 then
              match ishape.get? 2 with
              | some sz => .ok (.flattenCalc ifc sz)
              | none => .error (.crash i)
            else .ok ifc
          | _ => .error (.crash i)
        | _, _ => .error (.crash i)
    else if flags.features_concatenate then
      match gatherCalcs cmap nd.inputs with
      | some cs => .ok (.concatCalc cs)
      | none => .error (.crash i)
    else if flags.shared_input_features then
      match nd.inputs with
      | [] => .error (.crash i)
      | p :: _ =>
        match cmap p with
        | some ifc => .ok ifc
        | none => .error (.crash i)
    else if flags.features_defining then
      match nd.shape with
      | some s =>
        match s.get? 1 with
        | some c => .ok (.const c)
        | none => .error (.crash i)
      | none => .error (.crash i)
    else if flags.features_propagating then
      match nd.inputs with
      | [] => .error (.crash i)
      | p :: _ =>
        match cmap p with
        | some ifc => .ok ifc
        | none => .error (.crash i)
    else .error (.unsupportedNode i)

/-- Loop body of annotation.add_features_calculator (lines 68 to 146): a
popped node some of whose predecessors have no stored calculator yet is
dropped without processing and without enqueueing its successors (lines 70
to 78); otherwise the calculator is built and stored and the successors are
enqueued. -/
def featuresCalcBody (g : Graph) (fl : MetaMap NodeFlags)
    (extraRules : List ExtraRule) (i : Nat) (st : MetaMap FeaturesCalculator) :
    Except PassError (MetaMap FeaturesCalculator × Bool) :=
  match g.get? i with
  | none => .error (.crash i)
  | some nd =>
    if nd.inputs.any (fun p => (st p).isNone) then .ok (st, false)
    else
      match fl i with
      | none => .error (.crash i)
      | some flags =>
        match calcStep g extraRules i nd flags st with
        | .error e => .error e
        | .ok fc => .ok (mset st i fc, true)

/-- Embeds annotation.add_features_calculator: worklist seeded with the
input nodes, building one calculator per node.  fl is the flag metadata left
by add_node_properties; st0 is the calculator metadata the graph already
carries. -/
def add_features_calculator (g : Graph) (extraRules : List ExtraRule)
    (fl : MetaMap NodeFlags) (st0 : MetaMap FeaturesCalculator) (fuel : Nat) :
    Except PassError (List Nat × MetaMap FeaturesCalculator) :=
  runLoop g (featuresCalcBody g fl extraRules) fuel (get_input_nodes g) st0

/-- The per-node decision of annotation.associate_input_features (lines 163
to 212): what, if anything, is written for the popped node this round.
An input node (no inputs) points at itself.  A concatenation node records
the ordered predecessor list, but only once every predecessor has its own
back reference; otherwise nothing is written this round.  Any other node
looks at its first predecessor: if that predecessor has no back reference
yet nothing is written this round; otherwise the written value follows the
flatten, squeeze, concatenate, defining and propagating branches of the
source, and any other predecessor classification raises the
unsupported-node error. -/
def assocDecision (g : Graph) (fl : MetaMap NodeFlags) (i : Nat) (nd : Node)
    (st : MetaMap SetBy) : Except PassError (Option SetBy) :=
  match nd.inputs with
  | [] => .ok (some (.single i))
  | prevId :: _ =>
    match fl i with
    | none => .error (.crash i)
    | some myFlags =>
      if myFlags.features_concatenate then
        if nd.inputs.any (fun w => (st w).isNone) then .ok none
        else .ok (some (.several nd.inputs))
      else
        match st prevId with
        | none => .ok none
        | some prevSet =>
          match g.get? prevId, fl prevId with
          | some prevNode, some prevFlags =>
            if prevFlags.flatten then
              match prevNode.inputs with
              | [] => .error (.crash i)
              | pp :: _ =>
                match (g.get? pp).bind Node.shape with
                | none => .error (.crash i)
                | some ishape =>
                  match try_get_args prevNode 1 "start_dim" (.aint 0) with
                  | .aint sd =>
                    if sd = 0 ∨ (ishape.length : Int) - sd = 0 then
                      .error (.flattenBatch i)
                    else if sd = 1 ∨ (ishape.length : Int) - sd = 1 then
                      .ok (some (.single prevId))
                    else .ok (some prevSet)
                  | _ => .error (.crash i)
            else if prevFlags.squeeze then
              match prevNode.inputs with
              | [] => .error (.crash i)
              | pp :: _ =>
                match (g.get? pp).bind Node.shape with
                | none => .error (.crash i)
                | some ishape =>
                  match try_get_args prevNode 1 "dim" .anone with
                  | .anone => .error (.squeezeNoDim i)
                  | .aint d =>
                    if d = 0 ∨ (ishape.length : Int) - d = 0 then
                      .error (.squeezeBatch i)
                    else if d = 1 ∨ (ishape.length : Int) - d = 1 then
                      .ok (some (.single prevId))
                    else .ok (some prevSet)
                  | _ => .error (.crash i)
            else if prevFlags.features_concatenate then
              .ok (some (.single prevId))
            else if prevFlags.features_defining then
              .ok (some (.single prevId))
            else if prevFlags.features_propagating then
              .ok (some prevSet)
            else .error (.unsupportedNode i)
          | _, _ => .error (.crash i)

/-- Loop body of annotation.associate_input_features (lines 160 to 215):
apply the per-node decision, storing the value when there is one; the
successors are enqueued on every non-error exit, written or skipped. -/
def associateBody (g : Graph) (fl : MetaMap NodeFlags) (i : Nat)
    (st : MetaMap SetBy) : Except PassError (MetaMap SetBy × Bool) :=
  match g.get? i with
  | none => .error (.crash i)
  | some nd =>
    match assocDecision g fl i nd st with
    | .error e => .error e
    | .ok none => .ok (st, true)
    | .ok (some v) => .ok (mset st i v, true)

/-- Embeds annotation.associate_input_features: worklist seeded with the
input nodes, recording the back reference per node.  fl is the flag metadata
left by add_node_properties; st0 the back-reference metadata the graph
already carries. -/
def associate_input_features (g : Graph) (fl : MetaMap NodeFlags)
    (st0 : MetaMap SetBy) (fuel : Nat) :
    Except PassError (List Nat × MetaMap SetBy) :=
  runLoop g (associateBody g fl) fuel (get_input_nodes g) st0

/-- Metadata entry of one node in a pass result (none on error). -/
def resultState (r : Except PassError (List Nat × MetaMap α)) (i : Nat) :
    Option α :=
  match r with
  | .ok (_, m) => m i
  | .error _ => none

/-- Whether a pass result is a successful run that drained its queue. -/
def resultDone (r : Except PassError (List Nat × MetaMap α)) : Bool :=
  match r with
  | .ok (q, _) => q.isEmpty
  | .error _ => false

/-- Build a node. -/
def mkNode (op : OpKind) (inputs : List Nat) (args : List Arg)
    (kwargs : List (String × Arg)) (shape : Option (List Nat)) : Node :=
  { op := op, inputs := inputs, args := args, kwargs := kwargs, shape := shape }

/-- End-to-end scenario of spec 8: one input, two parallel convolutions with
16 and 24 output channels, a channel concatenation, a third convolution, and
the output node. -/
def gC1 : Graph :=
  [ mkNode .placeholder [] [] [] (some [1, 3, 40]),
    mkNode (.callModule .conv1d) [0] [.anode 0] [] (some [1, 16, 40]),
    mkNode (.callModule .conv1d) [0] [.anode 0] [] (some [1, 24, 40]),
    mkNode (.callFunction .torchCat) [1, 2] [.anode 1, .anode 2] [] (some [1, 40, 40]),
    mkNode (.callModule .conv1d) [3] [.anode 3] [] (some [1, 8, 40]),
    mkNode .output [4] [.anode 4] [] none ]

/-- First pass result on gC1. -/
def propsC1 : Except PassError (List Nat × MetaMap NodeFlags) :=
  add_node_properties gC1 emptyMeta 40

/-- Flag metadata of gC1 after the first pass. -/
def flmC1 : MetaMap NodeFlags :=
  match propsC1 with
  | .ok (_, m) => m
  | .error _ => emptyMeta

/-- Calculator pass result on gC1 (no extension rules). -/
def calcC1 : Except PassError (List Nat × MetaMap FeaturesCalculator) :=
  add_features_calculator gC1 [] flmC1 emptyMeta 60

/-- Back-reference pass result on gC1. -/
def assocC1 : Except PassError (List Nat × MetaMap SetBy) :=
  associate_input_features gC1 flmC1 emptyMeta 60

/-- Graph with a shared-input combiner that has a successor: one input, two
convolutions, an element-wise add, and the output node. -/
def gShared : Graph :=
  [ mkNode .placeholder [] [] [] (some [1, 3, 40]),
    mkNode (.callModule .conv1d) [0] [.anode 0] [] (some [1, 16, 40]),
    mkNode (.callModule .conv1d) [0] [.anode 0] [] (some [1, 16, 40]),
    mkNode (.callFunction .torchAdd) [1, 2] [.anode 1, .anode 2] [] (some [1, 16, 40]),
    mkNode .output [3] [.anode 3] [] none ]

/-- First pass result on gShared. -/
def propsShared : Except PassError (List Nat × MetaMap NodeFlags) :=
  add_node_properties gShared emptyMeta 40

/-- Flag metadata of gShared. -/
def flmShared : MetaMap NodeFlags :=
  match propsShared with
  | .ok (_, m) => m
  | .error _ => emptyMeta

/-- Calculator pass result on gShared. -/
def calcShared : Except PassError (List Nat × MetaMap FeaturesCalculator) :=
  add_features_calculator gShared [] flmShared emptyMeta 60

/-- Back-reference pass result on gShared. -/
def assocShared : Except PassError (List Nat × MetaMap SetBy) :=
  associate_input_features gShared flmShared emptyMeta 60

/-- Graph with one node of unrecognized kind (a view call_method). -/
def gView : Graph :=
  [ mkNode .placeholder [] [] [] (some [1, 3, 40]),
    mkNode (.callMethod "view") [0] [.anode 0] [] (some [1, 3, 40]) ]

/-- First pass result on gView. -/
def propsView : Except PassError (List Nat × MetaMap NodeFlags) :=
  add_node_properties gView emptyMeta 20

/-- Flag metadata of gView. -/
def flmView : MetaMap NodeFlags :=
  match propsView with
  | .ok (_, m) => m
  | .error _ => emptyMeta

/-- Calculator pass result on gView. -/
def calcView : Except PassError (List Nat × MetaMap FeaturesCalculator) :=
  add_features_calculator gView [] flmView emptyMeta 20

/-- Graph containing a non-input node with zero predecessors (a get_attr
node), next to a normal placeholder-to-relu chain. -/
def gAttr : Graph :=
  [ mkNode .placeholder [] [] [] (some [1, 3, 40]),
    mkNode .getAttr [] [] [] (some [16]),
    mkNode (.callModule .reluMod) [0] [.anode 0] [] (some [1, 3, 40]) ]

/-- First pass result on gAttr. -/
def propsAttr : Except PassError (List Nat × MetaMap NodeFlags) :=
  add_node_properties gAttr emptyMeta 20

/-- Flag metadata of gAttr. -/
def flmAttr : MetaMap NodeFlags :=
  match propsAttr with
  | .ok (_, m) => m
  | .error _ => emptyMeta

/-- Calculator pass result on gAttr. -/
def calcAttr : Except PassError (List Nat × MetaMap FeaturesCalculator) :=
  add_features_calculator gAttr [] flmAttr emptyMeta 20

/-- Back-reference pass result on gAttr. -/
def assocAttr : Except PassError (List Nat × MetaMap SetBy) :=
  associate_input_features gAttr flmAttr emptyMeta 20

/-- A flatten node with the given explicit start_dim argument, fed by an
input of declared shape (1, 32, 5, 3). -/
def gFlat (sd : Int) : Graph :=
  [ mkNode .placeholder [] [] [] (some [1, 32, 5, 3]),
    mkNode (.callMethod "flatten") [0] [.anode 0, .aint sd] [] (some [1, 480]) ]

/-- Flag metadata of gFlat sd. -/
def flmFlat (sd : Int) : MetaMap NodeFlags :=
  match add_node_properties (gFlat sd) emptyMeta 20 with
  | .ok (_, m) => m
  | .error _ => emptyMeta

/-- Calculator pass result on gFlat sd. -/
def calcFlat (sd : Int) : Except PassError (List Nat × MetaMap FeaturesCalculator) :=
  add_features_calculator (gFlat sd) [] (flmFlat sd) emptyMeta 20

/-- A flatten node with no dimension arguments at all (torch default
start_dim 0), fed by an input of declared shape (1, 32, 5, 3). -/
def gFlatDefault : Graph :=
  [ mkNode .placeholder [] [] [] (some [1, 32, 5, 3]),
    mkNode (.callMethod "flatten") [0] [.anode 0] [] (some [1, 480]) ]

/-- Flag metadata of gFlatDefault. -/
def flmFlatDefault : MetaMap NodeFlags :=
  match add_node_properties gFlatDefault emptyMeta 20 with
  | .ok (_, m) => m
  | .error _ => emptyMeta

/-- Calculator pass result on gFlatDefault. -/
def calcFlatDefault : Except PassError (List Nat × MetaMap FeaturesCalculator) :=
  add_features_calculator gFlatDefault [] flmFlatDefault emptyMeta 20

/-- Graph on which the calculator pass pops a node before all its
predecessors are done: input 0 feeds both convolution 1 and combiner 3,
convolution 2 sits between 1 and 3. -/
def gDefer : Graph :=
  [ mkNode .placeholder [] [] [] (some [1, 3, 40]),
    mkNode (.callModule .conv1d) [0] [.anode 0] [] (some [1, 8, 40]),
    mkNode (.callModule .conv1d) [1] [.anode 1] [] (some [1, 8, 40]),
    mkNode (.callFunction .torchAdd) [2, 0] [.anode 2, .anode 0] [] (some [1, 8, 40]) ]

/-- Flag metadata of gDefer. -/
def flmDefer : MetaMap NodeFlags :=
  match add_node_properties gDefer emptyMeta 20 with
  | .ok (_, m) => m
  | .error _ => emptyMeta

/-- Graph with a call_function add node that has a single tensor input (the
other operand is the constant 1). -/
def gOneAdd : Graph :=
  [ mkNode .placeholder [] [] [] (some [1, 3, 40]),
    mkNode (.callFunction .torchAdd) [0] [.anode 0, .aint 1] [] (some [1, 3, 40]) ]

/-- Flag metadata of gOneAdd. -/
def flmOneAdd : MetaMap NodeFlags :=
  match add_node_properties gOneAdd emptyMeta 20 with
  | .ok (_, m) => m
  | .error _ => emptyMeta

/-- How many of the six classifying flags are set. -/
def sixTrueCount (f : NodeFlags) : Nat :=
  (if f.features_propagating then 1 else 0) +
  (if f.features_defining then 1 else 0) +
  (if f.shared_input_features then 1 else 0) +
  (if f.flatten then 1 else 0) +
  (if f.squeeze then 1 else 0) +
  (if f.features_concatenate then 1 else 0)

/-- Validity of the dimension arguments of a flatten node: the first
predecessor has a declared shape, start_dim and end_dim resolve to
integers, and start_dim avoids both values the batch assertion rejects. -/
def flattenArgsOk (g : Graph) (nd : Node) : Bool :=
  match nd.inputs with
  | [] => false
  | p :: _ =>
    match (g.get? p).bind Node.shape with
    | none => false
    | some s =>
      match try_get_args nd 1 "start_dim" (.aint 0),
            try_get_args nd 2 "end_dim" (.aint (-1)) with
      | .aint sd, .aint _ => !(sd == 0) && !((s.length : Int) - sd == 0)
      | _, _ => false

/-- Validity of the dimension argument of a squeeze node: the first
predecessor has a declared shape, dim is an integer avoiding both values
the batch assertion rejects, and the shape is long enough whenever the
channel branch would index it. -/
def squeezeArgsOk (g : Graph) (nd : Node) : Bool :=
  match nd.inputs with
  | [] => false
  | p :: _ =>
    match (g.get? p).bind Node.shape with
    | none => false
    | some s =>
      match try_get_args nd 1 "dim" .anone with
      | .aint d =>
        !(d == 0) && !((s.length : Int) - d == 0) &&
        (if d = 1 ∨ (s.length : Int) - d = 1 then decide (3 ≤ s.length) else true)
      | _ => false

/-- A node all three passes can process: its input references are in range,
exactly the placeholder nodes have no inputs, at least one of the six
classifying predicates holds, reshape nodes carry valid dimension
arguments, and features-defining nodes carry a shape with a channel
entry. -/
def goodNode (g : Graph) (nd : Node) : Bool :=
  nd.inputs.all (fun i => decide (i < g.length)) &&
  (match nd.op with
   | .placeholder => nd.inputs.isEmpty
   | _ => !nd.inputs.isEmpty) &&
  (let f := nodeProperties nd
   (f.flatten || f.squeeze || f.features_concatenate || f.shared_input_features ||
    f.features_defining || f.features_propagating) &&
   (!f.flatten || flattenArgsOk g nd) &&
   (!f.squeeze || squeezeArgsOk g nd) &&
   (!f.features_defining ||
     (match nd.shape with
      | some s => decide (2 ≤ s.length)
      | none => false)))

/-- A graph all three passes fully process: every node is good and no
shared-input combiner has a successor (the back-reference pass has no
branch for a shared-input predecessor and raises on one). -/
def goodGraph (g : Graph) : Bool :=
  g.all (goodNode g) &&
  (List.range g.length).all (fun j =>
    (nodeInputs g j).all (fun p =>
      match g.get? p with
      | some pn => !is_shared_input_features_op pn
      | none => false))

/-- Termination measure of a worklist queue: each entry weighs according to
how far below the rank ceiling it sits; popped entries are replaced by
strictly lighter successors, so the total strictly drops each iteration. -/
def qMeasure (g : Graph) (rank : Nat → Nat) (q : List Nat) : Nat :=
  (q.map (fun n => (g.length + 1) ^ (g.length - rank n))).sum

/-- Queue left by a pass result (none on error). -/
def resultQueue (r : Except PassError (List Nat × MetaMap α)) : Option (List Nat) :=
  match r with
  | .ok (q, _) => some q
  | .error _ => none

/-- Calculator pass on gDefer stopped after the given number of loop
iterations. -/
def deferStep (fuel : Nat) : Except PassError (List Nat × MetaMap FeaturesCalculator) :=
  runLoop gDefer (featuresCalcBody gDefer flmDefer []) fuel (get_input_nodes gDefer) emptyMeta

/-- Whether a pass result is any successful run (error-free). -/
def passOk (r : Except PassError (List Nat × MetaMap α)) : Bool :=
  match r with
  | .ok _ => true
  | .error _ => false

/-- Whether index k holds an input node: a placeholder with no inputs. -/
def isInputNode (g : Graph) (k : Nat) : Bool :=
  match g.get? k with
  | some nd => nd.op == .placeholder && nd.inputs.isEmpty
  | none => false

/-- Calculator metadata of gAttr after the second pass. -/
def calcAttrMap : MetaMap FeaturesCalculator :=
  match calcAttr with
  | .ok (_, m) => m
  | .error _ => emptyMeta

/-- Back-reference metadata of gAttr after the third pass. -/
def assocAttrMap : MetaMap SetBy :=
  match assocAttr with
  | .ok (_, m) => m
  | .error _ => emptyMeta

/-- Calculator metadata of gDefer after two loop iterations, the moment
node 3 sits at the queue head while its predecessor 2 has no calculator. -/
def deferState2 : MetaMap FeaturesCalculator :=
  match deferStep 2 with
  | .ok (_, m) => m
  | .error _ => emptyMeta

/-- Calculator metadata of gC1 after the second pass. -/
def calcC1Map : MetaMap FeaturesCalculator :=
  match calcC1 with
  | .ok (_, m) => m
  | .error _ => emptyMeta

/-- Back-reference metadata of gC1 after the third pass. -/
def assocC1Map : MetaMap SetBy :=
  match assocC1 with
  | .ok (_, m) => m
  | .error _ => emptyMeta

/-- C1 counterexample: in the end-to-end scenario the third convolution
(node 4) does not carry the ordered predecessor list as its back reference;
the pass stores the concatenation node itself (single reference to node 3),
while the list [1, 2] lives on the concatenation node. -/
theorem C1_counterexample :
    resultDone assocC1 = true ∧
    resultState assocC1 4 = some (SetBy.single 3) ∧
    SetBy.single 3 ≠ SetBy.several [1, 2] := by
  refine ⟨rfl, rfl, ?_⟩
  decide

/-- C1 amended: after the three passes on the two-convolution concatenation
scenario, the calculator attached to the predecessor of the third
convolution is the concat combiner over the two upstream constant
calculators and resolves to exactly 40; the back reference of the third
convolution is the concatenation node, and the back reference of the
concatenation node is the ordered list of the two upstream convolutions in
input order. -/
theorem C1_amended_theorem :
    resultDone propsC1 = true ∧
    resultDone calcC1 = true ∧
    resultDone assocC1 = true ∧
    resultState calcC1 3 =
      some (FeaturesCalculator.concatCalc
        [FeaturesCalculator.const 16, FeaturesCalculator.const 24]) ∧
    (FeaturesCalculator.concatCalc
        [FeaturesCalculator.const 16, FeaturesCalculator.const 24]).features = 40 ∧
    resultState assocC1 4 = some (SetBy.single 3) ∧
    resultState assocC1 3 = some (SetBy.several [1, 2]) :=
  ⟨rfl, rfl, rfl, rfl, rfl, rfl, rfl⟩

/-- C2 counterexample: gShared is a finite acyclic graph in which every node
is of an allow-listed kind (each node satisfies exactly one of the six
classifying predicates), the first two passes complete, yet the
back-reference pass raises the unsupported-node error on the successor of
the add combiner, because the branch for a shared-input predecessor is
absent from that pass. -/
theorem C2_counterexample :
    (List.range gShared.length).all
      (fun j =>
        match gShared.get? j with
        | some nd => sixTrueCount (nodeProperties nd) == 1
        | none => false) = true ∧
    resultDone propsShared = true ∧
    resultDone calcShared = true ∧
    assocShared = .error (.unsupportedNode 4) := by
  exact ⟨by decide, rfl, rfl, rfl⟩

/-- C3 counterexample: node 1 of gView is a non-input node matching none of
the six predicates; the first pass completes without error, writing all six
flags false, and the unsupported-node error is raised only by the
feature-calculator pass. -/
theorem C3_counterexample :
    (gView.get? 1).map Node.op = some (.callMethod "view") ∧
    resultDone propsView = true ∧
    (flmView 1).map sixTrueCount = some 0 ∧
    calcView = .error (.unsupportedNode 1) := by
  exact ⟨rfl, rfl, rfl, rfl⟩

/-- C4 counterexample: gAttr contains a non-input node (index 1, a get_attr
node) with zero predecessors, yet nothing fails: the input enumeration
returns only the placeholder, the edge construction ignores the node, and
all three passes run to completion, never visiting it. -/
theorem C4_counterexample :
    (gAttr.get? 1).map Node.op = some OpKind.getAttr ∧
    nodeInputs gAttr 1 = [] ∧
    get_input_nodes gAttr = [0] ∧
    fx_to_nx_graph gAttr = [(0, 2)] ∧
    resultDone propsAttr = true ∧
    resultDone calcAttr = true ∧
    resultDone assocAttr = true ∧
    flmAttr 1 = none := by
  exact ⟨rfl, rfl, by decide, by decide, rfl, rfl, rfl, rfl⟩

/-- C5: flatten on predecessor shape (1, 32, 5, 3) with an attached
predecessor calculator of value 32: with start_dim 2 the flatten node
stores the very same calculator (value 32); with start_dim 1 and the
default end_dim it stores the flatten transform with multiplier 5 * 3 = 15,
resolving to 32 * 15 = 480. -/
theorem C5_theorem :
    resultDone (calcFlat 2) = true ∧
    resultState (calcFlat 2) 0 = some (FeaturesCalculator.const 32) ∧
    resultState (calcFlat 2) 1 = some (FeaturesCalculator.const 32) ∧
    (FeaturesCalculator.const 32).features = 32 ∧
    resultDone (calcFlat 1) = true ∧
    resultState (calcFlat 1) 1 =
      some (FeaturesCalculator.flattenCalc (FeaturesCalculator.const 32) 15) ∧
    (FeaturesCalculator.flattenCalc (FeaturesCalculator.const 32) 15).features = 480 := by
  exact ⟨rfl, rfl, rfl, rfl, rfl, rfl, rfl⟩

/-- C6: evaluation at the failing input.  A flatten with start_dim -4 on a
predecessor of shape (1, 32, 5, 3) resolves to the batch dimension, yet the
feature-calculator pass completes and stores a passthrough calculator,
because the batch assertion tests length minus start_dim instead of length
plus start_dim; with start_dim 0, explicit or defaulted, the very same
assertion does fire. -/
theorem C6_theorem :
    resultDone (calcFlat (-4)) = true ∧
    resultState (calcFlat (-4)) 1 = some (FeaturesCalculator.const 32) ∧
    calcFlat 0 = .error (.flattenBatch 1) ∧
    calcFlatDefault = .error (.flattenBatch 1) := by
  exact ⟨rfl, rfl, rfl, rfl⟩

/-- C7 counterexample: on gDefer, after two iterations of the calculator
pass the queue is [3, 2] and the head node 3 still has the predecessor 2
without a calculator; the third iteration yields the queue [2], not the
queue [2, 3] that re-enqueueing the popped node at the tail would give. -/
theorem C7_counterexample :
    resultQueue (deferStep 2) = some [3, 2] ∧
    resultState (deferStep 2) 2 = none ∧
    (nodeInputs gDefer 3).contains 2 = true ∧
    resultQueue (deferStep 3) = some [2] ∧
    some [2] ≠ some [2, 3] := by
  exact ⟨by decide, rfl, by decide, by decide, by decide⟩

/-- C9 counterexample: after the first pass on gView, the non-input node 1
carries none of the six classifying flags, so exactly one of the six does
not hold for every non-input node. -/
theorem C9_counterexample :
    (gView.get? 1).map Node.op = some (.callMethod "view") ∧
    resultDone propsView = true ∧
    (flmView 1).map sixTrueCount = some 0 ∧
    (0 : Nat) ≠ 1 := by
  exact ⟨rfl, rfl, rfl, by decide⟩

theorem mem_successors {g : Graph} {i j : Nat} :
    j ∈ successors g i ↔ j < g.length ∧ i ∈ nodeInputs g j := by
  simp [successors, List.mem_filter, List.mem_range, decide_eq_true_eq]

theorem length_successors_le (g : Graph) (i : Nat) :
    (successors g i).length ≤ g.length :=
  (List.length_filter_le _ _).trans (Nat.le_of_eq (List.length_range _))

theorem mem_get_input_nodes {g : Graph} {j : Nat} :
    j ∈ get_input_nodes g ↔
      j < g.length ∧ ∃ nd, g.get? j = some nd ∧ nd.op = .placeholder := by
  simp only [get_input_nodes, List.mem_filter, List.mem_range]
  constructor
  · rintro ⟨hj, hmatch⟩
    refine ⟨hj, ?_⟩
    cases hget : g.get? j with
    | none => rw [hget] at hmatch; exact absurd hmatch (by simp)
    | some nd =>
        rw [hget] at hmatch
        exact ⟨nd, rfl, by simpa using hmatch⟩
  · rintro ⟨hj, nd, hget, hop⟩
    exact ⟨hj, by rw [hget]; simpa using hop⟩

theorem get?_lt {g : Graph} {j : Nat} {nd : Node} (h : g.get? j = some nd) :
    j < g.length :=
  List.get?_eq_some.mp h |>.1

theorem mset_self {α : Type} (m : MetaMap α) (i : Nat) (v : α) :
    mset m i v i = some v := by
  simp [mset]

theorem mset_other {α : Type} (m : MetaMap α) (i : Nat) (v : α) {j : Nat}
    (h : j ≠ i) : mset m i v j = m j := by
  simp [mset, h]

theorem mset_eq_self {α : Type} {m : MetaMap α} {i : Nat} {v : α}
    (h : m i = some v) : mset m i v = m := by
  funext j
  by_cases hj : j = i
  · subst hj; simp [mset, h]
  · simp [mset, hj]

theorem runLoop_preserves {σ : Type} (g : Graph)
    (body : Nat → σ → Except PassError (σ × Bool))
    (I : List Nat → σ → Prop)
    (hstep : ∀ n rest st st' app, I (n :: rest) st → body n st = .ok (st', app) →
      I (rest ++ (if app then successors g n else [])) st') :
    ∀ fuel q st q' st', runLoop g body fuel q st = .ok (q', st') → I q st → I q' st' := by
  intro fuel
  induction fuel with
  | zero =>
      intro q st q' st' h hI
      simp only [runLoop] at h
      cases h
      exact hI
  | succ f ih =>
      intro q st q' st' h hI
      cases q with
      | nil =>
          simp only [runLoop] at h
          cases h
          exact hI
      | cons n rest =>
          simp only [runLoop] at h
          cases hb : body n st with
          | error e => rw [hb] at h; cases h
          | ok p =>
              obtain ⟨st'', app⟩ := p
              rw [hb] at h
              exact ih _ _ _ _ h (hstep n rest st st'' app hI hb)

theorem qMeasure_nil (g : Graph) (rank : Nat → Nat) :
    qMeasure g rank [] = 0 := rfl

theorem qMeasure_cons (g : Graph) (rank : Nat → Nat) (n : Nat) (q : List Nat) :
    qMeasure g rank (n :: q) =
      (g.length + 1) ^ (g.length - rank n) + qMeasure g rank q := by
  simp [qMeasure]

theorem qMeasure_append (g : Graph) (rank : Nat → Nat) (q r : List Nat) :
    qMeasure g rank (q ++ r) = qMeasure g rank q + qMeasure g rank r := by
  simp [qMeasure]

theorem qMeasure_step_lt (g : Graph) (rank : Nat → Nat) (n : Nat)
    (rest L : List Nat) (hn : rank n < g.length)
    (hL : ∀ w ∈ L, rank n < rank w) (hlen : L.length ≤ g.length) :
    qMeasure g rank (rest ++ L) < qMeasure g rank (n :: rest) := by
  rw [qMeasure_append, qMeasure_cons]
  have hbound : qMeasure g rank L ≤
      g.length * (g.length + 1) ^ (g.length - rank n - 1) := by
    have hone : ∀ x ∈ L.map (fun w => (g.length + 1) ^ (g.length - rank w)),
        x ≤ (g.length + 1) ^ (g.length - rank n - 1) := by
      intro x hx
      obtain ⟨w, hw, rfl⟩ := List.mem_map.mp hx
      apply Nat.pow_le_pow_right (Nat.succ_le_succ (Nat.zero_le _))
      have := hL w hw
      omega
    have hsum := List.sum_le_card_nsmul _ _ hone
    rw [List.length_map] at hsum
    calc qMeasure g rank L ≤
          L.length * (g.length + 1) ^ (g.length - rank n - 1) := by
            simpa [qMeasure, smul_eq_mul] using hsum
      _ ≤ g.length * (g.length + 1) ^ (g.length - rank n - 1) :=
            Nat.mul_le_mul_right _ hlen
  have hpow : g.length * (g.length + 1) ^ (g.length - rank n - 1) <
      (g.length + 1) ^ (g.length - rank n) := by
    have hk : g.length - rank n - 1 + 1 = g.length - rank n := by omega
    have hsplit : (g.length + 1) ^ (g.length - rank n) =
        (g.length + 1) * (g.length + 1) ^ (g.length - rank n - 1) := by
      rw [← hk, Nat.pow_succ]
      exact Nat.mul_comm _ _
    rw [hsplit]
    exact (Nat.mul_lt_mul_right (Nat.pos_pow_of_pos _ (by omega))).mpr (by omega)
  omega

theorem runLoop_term {σ : Type} (g : Graph)
    (body : Nat → σ → Except PassError (σ × Bool)) (rank : Nat → Nat)
    (hrb : ∀ n, n < g.length → rank n < g.length)
    (hrk : ∀ j, j < g.length → ∀ i ∈ nodeInputs g j, rank i < rank j)
    (I : List Nat → σ → Prop)
    (hvalid : ∀ q st, I q st → ∀ n ∈ q, n < g.length)
    (hbody : ∀ n rest st, I (n :: rest) st →
      ∃ st' app, body n st = .ok (st', app) ∧
        I (rest ++ (if app then successors g n else [])) st') :
    ∀ fuel q st, I q st → qMeasure g rank q ≤ fuel →
      ∃ st', runLoop g body fuel q st = .ok ([], st') ∧ I [] st' := by
  intro fuel
  induction fuel with
  | zero =>
      intro q st hI hm
      cases q with
      | nil => exact ⟨st, rfl, hI⟩
      | cons n rest =>
          exfalso
          rw [qMeasure_cons] at hm
          have : 0 < (g.length + 1) ^ (g.length - rank n) :=
            Nat.pos_pow_of_pos _ (by omega)
          omega
  | succ f ih =>
      intro q st hI hm
      cases q with
      | nil => exact ⟨st, rfl, hI⟩
      | cons n rest =>
          obtain ⟨st', app, hb, hI'⟩ := hbody n rest st hI
          have hn : n < g.length := hvalid _ _ hI n (by simp)
          have hdec : qMeasure g rank
              (rest ++ (if app then successors g n else [])) <
              qMeasure g rank (n :: rest) := by
            apply qMeasure_step_lt g rank n rest _ (hrb n hn)
            · intro w hw
              rcases app with _ | _
              · simp at hw
              · have hw' := mem_successors.mp (by simpa using hw)
                exact hrk w hw'.1 n hw'.2
            · rcases app with _ | _
              · simp
              · simpa using length_successors_le g n
          obtain ⟨stf, hrun, hIf⟩ := ih _ st' hI' (by omega)
          refine ⟨stf, ?_, hIf⟩
          simp only [runLoop, hb]
          exact hrun

theorem nodePropsBody_eq {g : Graph} {n : Nat} {nd : Node} (st : MetaMap NodeFlags)
    (h : g.get? n = some nd) :
    nodePropsBody g n st = .ok (mset st n (nodeProperties nd), true) := by
  unfold nodePropsBody
  rw [h]

theorem sixTrueCount_le_one (nd : Node) : sixTrueCount (nodeProperties nd) ≤ 1 := by
  cases hop : nd.op with
  | placeholder =>
      simp only [sixTrueCount, nodeProperties, is_features_propagating_op,
        is_features_defining_op, is_shared_input_features_op, is_flatten,
        is_squeeze, is_features_concatenate, hop]
      split_ifs <;> simp_all
  | output =>
      simp only [sixTrueCount, nodeProperties, is_features_propagating_op,
        is_features_defining_op, is_shared_input_features_op, is_flatten,
        is_squeeze, is_features_concatenate, hop]
      split_ifs <;> simp_all
  | callModule m =>
      cases m <;>
        simp only [sixTrueCount, nodeProperties, is_features_propagating_op,
          is_features_defining_op, is_shared_input_features_op, is_flatten,
          is_squeeze, is_features_concatenate, hop] <;>
        split_ifs <;> simp_all
  | callFunction f =>
      cases f <;>
        simp only [sixTrueCount, nodeProperties, is_features_propagating_op,
          is_features_defining_op, is_shared_input_features_op, is_flatten,
          is_squeeze, is_features_concatenate, hop] <;>
        split_ifs <;> simp_all
  | callMethod s =>
      by_cases hs : s = "flatten"
      · subst hs
        simp only [sixTrueCount, nodeProperties, is_features_propagating_op,
          is_features_defining_op, is_shared_input_features_op, is_flatten,
          is_squeeze, is_features_concatenate, hop]
        split_ifs <;> simp_all
      · simp only [sixTrueCount, nodeProperties, is_features_propagating_op,
          is_features_defining_op, is_shared_input_features_op, is_flatten,
          is_squeeze, is_features_concatenate, hop]
        split_ifs <;> simp_all
  | getAttr =>
      simp only [sixTrueCount, nodeProperties, is_features_propagating_op,
        is_features_defining_op, is_shared_input_features_op, is_flatten,
        is_squeeze, is_features_concatenate, hop]
      split_ifs <;> simp_all

theorem placeholder_features_defining (nd : Node) (hop : nd.op = .placeholder)
    (hinp : nd.inputs = []) : (nodeProperties nd).features_defining = true := by
  simp [nodeProperties, is_features_defining_op, hop, hinp]

theorem annot_stored_props {g : Graph} :
    ∀ fuel q st q' flm,
      runLoop g (nodePropsBody g) fuel q st = .ok (q', flm) →
      (∀ k v, st k = some v → ∃ nd, g.get? k = some nd ∧ v = nodeProperties nd) →
      ∀ k f, flm k = some f → ∃ nd, g.get? k = some nd ∧ f = nodeProperties nd := by
  intro fuel q st q' flm hrun hinit
  have := runLoop_preserves g (nodePropsBody g)
    (fun _ st => ∀ k v, st k = some v →
      ∃ nd, g.get? k = some nd ∧ v = nodeProperties nd)
    ?_ fuel q st q' flm hrun hinit
  · exact this
  · intro n rest st1 st1' app hI hb
    cases hget : g.get? n with
    | none => unfold nodePropsBody at hb; rw [hget] at hb; cases hb
    | some nd =>
        rw [nodePropsBody_eq st1 hget] at hb
        cases hb
        intro k v hk
        by_cases hkn : k = n
        · subst hkn
          rw [mset_self] at hk
          cases hk
          exact ⟨nd, hget, rfl⟩
        · rw [mset_other _ _ _ hkn] at hk
          exact hI k v hk

theorem annot_never_errors (g : Graph) :
    ∀ fuel q st, (∀ n ∈ q, n < g.length) →
      ∃ r, runLoop g (nodePropsBody g) fuel q st = .ok r := by
  intro fuel
  induction fuel with
  | zero => intro q st _; exact ⟨(q, st), rfl⟩
  | succ f ih =>
      intro q st hq
      cases q with
      | nil => exact ⟨([], st), rfl⟩
      | cons n rest =>
          have hn : n < g.length := hq n (by simp)
          cases hget : g.get? n with
          | none =>
              exfalso
              have := List.get?_eq_none.mp hget
              omega
          | some nd =>
              obtain ⟨r, hr⟩ := ih (rest ++ successors g n) (mset st n (nodeProperties nd))
                (by
                  intro m hm
                  rcases List.mem_append.mp hm with hm | hm
                  · exact hq m (by simp [hm])
                  · exact (mem_successors.mp hm).1)
              refine ⟨r, ?_⟩
              simp only [runLoop, nodePropsBody_eq st hget]
              simpa using hr

theorem nodePropsBody_local {g : Graph} {i : Nat} {st st' : MetaMap NodeFlags}
    {app : Bool} (h : nodePropsBody g i st = .ok (st', app)) :
    ∀ k, k ≠ i → st' k = st k := by
  intro k hk
  unfold nodePropsBody at h
  split at h
  · cases h
  · cases h
    exact mset_other st i _ hk

theorem calcBody_local {g : Graph} {fl : MetaMap NodeFlags}
    {rules : List ExtraRule} {i : Nat} {st st' : MetaMap FeaturesCalculator}
    {app : Bool} (h : featuresCalcBody g fl rules i st = .ok (st', app)) :
    ∀ k, k ≠ i → st' k = st k := by
  intro k hk
  unfold featuresCalcBody at h
  repeat' split at h
  all_goals cases h <;> first | rfl | exact mset_other st i _ hk

theorem assocBody_local {g : Graph} {fl : MetaMap NodeFlags} {i : Nat}
    {st st' : MetaMap SetBy} {app : Bool}
    (h : associateBody g fl i st = .ok (st', app)) :
    ∀ k, k ≠ i → st' k = st k := by
  intro k hk
  unfold associateBody at h
  repeat' split at h
  all_goals cases h <;> first | rfl | exact mset_other st i _ hk

theorem runLoop_untouched {α : Type} {g : Graph}
    {body : Nat → MetaMap α → Except PassError (MetaMap α × Bool)}
    (hlocal : ∀ i st st' app, body i st = .ok (st', app) →
      ∀ k, k ≠ i → st' k = st k)
    {j : Nat} (hnosucc : ∀ n, j ∉ successors g n) :
    ∀ fuel q st0 q' st', runLoop g body fuel q st0 = .ok (q', st') →
      j ∉ q → st' j = st0 j := by
  intro fuel q st0 q' st' hrun hq
  have := runLoop_preserves g body
    (fun q st => j ∉ q ∧ st j = st0 j)
    ?_ fuel q st0 q' st' hrun ⟨hq, rfl⟩
  · exact this.2
  · intro n rest st st'' app hI hb
    have hjn : j ≠ n := fun hj => hI.1 (by simp [hj])
    refine ⟨?_, ?_⟩
    · intro hmem
      rcases List.mem_append.mp hmem with hm | hm
      · exact hI.1 (by simp [hm])
      · rcases app with _ | _
        · simp at hm
        · exact hnosucc n (by simpa using hm)
    · rw [hlocal n st st'' app hb j hjn]
      exact hI.2

/-- C4 amended: the adapter does not fail on a non-input node with zero
predecessors.  Such a node is not enumerated among the inputs, no edge of
the constructed digraph points at it, and any run of any of the three
passes leaves its metadata exactly as it was: the node is silently
ignored. -/
theorem C4_amended_theorem (g : Graph) (j : Nat) (nd : Node)
    (st0 : MetaMap NodeFlags) (c0 : MetaMap FeaturesCalculator)
    (s0 : MetaMap SetBy) (fl : MetaMap NodeFlags) (rules : List ExtraRule)
    (f1 f2 f3 : Nat) (q1 q2 q3 : List Nat) (flm : MetaMap NodeFlags)
    (cm : MetaMap FeaturesCalculator) (sm : MetaMap SetBy)
    (hget : g.get? j = some nd) (hop : nd.op ≠ .placeholder)
    (hinp : nd.inputs = [])
    (h1 : add_node_properties g st0 f1 = .ok (q1, flm))
    (h2 : add_features_calculator g rules fl c0 f2 = .ok (q2, cm))
    (h3 : associate_input_features g fl s0 f3 = .ok (q3, sm)) :
    j ∉ get_input_nodes g ∧
    (fx_to_nx_graph g).all (fun e => !(e.2 == j)) = true ∧
    flm j = st0 j ∧ cm j = c0 j ∧ sm j = s0 j := by
  have hgetE : g[j]? = some nd := by
    rw [← List.get?_eq_getElem?]
    exact hget
  have hnosucc : ∀ n, j ∉ successors g n := by
    intro n hmem
    have hm := mem_successors.mp hmem
    simp [nodeInputs, hgetE, hinp] at hm
  have hseed : j ∉ get_input_nodes g := by
    intro hmem
    obtain ⟨_, nd', hget', hop'⟩ := mem_get_input_nodes.mp hmem
    rw [hget] at hget'
    cases hget'
    exact hop hop'
  refine ⟨hseed, ?_, ?_, ?_, ?_⟩
  · rw [List.all_eq_true]
    intro e he
    obtain ⟨a, ha, hb⟩ := List.mem_flatMap.mp he
    obtain ⟨i, hi, rfl⟩ := List.mem_map.mp hb
    simp only [Bool.not_eq_true']
    rw [beq_eq_false_iff_ne]
    intro hja
    subst hja
    simp [nodeInputs, hgetE, hinp] at hi
  · exact runLoop_untouched (fun i st st' app hb => nodePropsBody_local hb)
      hnosucc f1 _ st0 q1 flm h1 hseed
  · exact runLoop_untouched (fun i st st' app hb => calcBody_local hb)
      hnosucc f2 _ c0 q2 cm h2 hseed
  · exact runLoop_untouched (fun i st st' app hb => assocBody_local hb)
      hnosucc f3 _ s0 q3 sm h3 hseed

/-- C4 witness: the amended statement at the concrete graph gAttr, whose
get_attr node 1 has zero predecessors and is ignored by everything. -/
theorem C4_witness :
    1 ∉ get_input_nodes gAttr ∧
    (fx_to_nx_graph gAttr).all (fun e => !(e.2 == 1)) = true ∧
    flmAttr 1 = emptyMeta 1 ∧ calcAttrMap 1 = emptyMeta 1 ∧
    assocAttrMap 1 = emptyMeta 1 := by
  exact C4_amended_theorem gAttr 1 (mkNode .getAttr [] [] [] (some [16]))
    emptyMeta emptyMeta emptyMeta flmAttr [] 20 20 20 [] [] []
    flmAttr calcAttrMap assocAttrMap rfl (by decide) rfl rfl rfl rfl

theorem calcBody_unsupported {g : Graph} {fl : MetaMap NodeFlags} {i : Nat}
    {nd : Node} (st : MetaMap FeaturesCalculator)
    (hget : g.get? i = some nd)
    (hfl : fl i = some (nodeProperties nd))
    (hpreds : ∀ p ∈ nd.inputs, (st p).isSome = true)
    (h1 : is_features_propagating_op nd = false)
    (h2 : is_features_defining_op nd = false)
    (h3 : is_shared_input_features_op nd = false)
    (h4 : is_flatten nd = false)
    (h5 : is_squeeze nd = false)
    (h6 : is_features_concatenate nd = false) :
    featuresCalcBody g fl [] i st = .error (.unsupportedNode i) := by
  have hskip : nd.inputs.any (fun p => (st p).isNone) = false := by
    rw [List.any_eq_false]
    intro p hp
    have hs := hpreds p hp
    cases hstp : st p with
    | none => rw [hstp] at hs; simp at hs
    | some v => simp [hstp]
  unfold featuresCalcBody
  rw [hget]
  simp only [hskip, Bool.false_eq_true, if_false]
  rw [hfl]
  unfold calcStep firstRule
  simp [nodeProperties, h1, h2, h3, h4, h5, h6]

/-- C3 amended: a non-input node matching none of the six classification
predicates is reported by the feature-calculator propagation pass, not by
the first pass: the first pass always completes without error (it only
writes predicate results), and when the propagation pass pops such a node
with all predecessor calculators present and no extension rules, it raises
the unsupported-node error. -/
theorem C3_amended_theorem (g : Graph) (st0 : MetaMap NodeFlags) (fuel : Nat)
    (fl : MetaMap NodeFlags) (i : Nat) (nd : Node)
    (st : MetaMap FeaturesCalculator)
    (hget : g.get? i = some nd)
    (hfl : fl i = some (nodeProperties nd))
    (hpreds : ∀ p ∈ nd.inputs, (st p).isSome = true)
    (h1 : is_features_propagating_op nd = false)
    (h2 : is_features_defining_op nd = false)
    (h3 : is_shared_input_features_op nd = false)
    (h4 : is_flatten nd = false)
    (h5 : is_squeeze nd = false)
    (h6 : is_features_concatenate nd = false) :
    passOk (add_node_properties g st0 fuel) = true ∧
    featuresCalcBody g fl [] i st = .error (.unsupportedNode i) := by
  constructor
  · obtain ⟨r, hr⟩ := annot_never_errors g fuel (get_input_nodes g) st0
      (fun n hn => (mem_get_input_nodes.mp hn).1)
    unfold add_node_properties
    rw [hr]
    rfl
  · exact calcBody_unsupported st hget hfl hpreds h1 h2 h3 h4 h5 h6

/-- C3 witness: the amended statement at the view node of gView, with the
predecessor calculator present. -/
theorem C3_witness :
    passOk (add_node_properties gView emptyMeta 20) = true ∧
    featuresCalcBody gView flmView []
      1 (mset emptyMeta 0 (FeaturesCalculator.const 3)) =
      .error (.unsupportedNode 1) := by
  exact C3_amended_theorem gView emptyMeta 20 flmView 1
    (mkNode (.callMethod "view") [0] [.anode 0] [] (some [1, 3, 40]))
    (mset emptyMeta 0 (FeaturesCalculator.const 3))
    rfl rfl (by decide)
    rfl rfl rfl rfl rfl rfl

/-- C9 amended: after the first pass, every node with stored flags carries
at most one true flag among the six classifying ones (none when the node
kind is not allow-listed), and every input node (placeholder without
inputs) carries features_defining. -/
theorem C9_amended_theorem (g : Graph) (fuel : Nat) (q' : List Nat)
    (flm : MetaMap NodeFlags) (k : Nat) (f : NodeFlags)
    (hrun : add_node_properties g emptyMeta fuel = .ok (q', flm))
    (hf : flm k = some f) :
    sixTrueCount f ≤ 1 ∧
    (isInputNode g k = true → f.features_defining = true) := by
  obtain ⟨nd, hget, rfl⟩ := annot_stored_props fuel _ _ _ _ hrun
    (by intro a v h; simp [emptyMeta] at h) k f hf
  refine ⟨sixTrueCount_le_one nd, ?_⟩
  intro hk
  unfold isInputNode at hk
  rw [hget] at hk
  have hop : nd.op = .placeholder := by
    have := (Bool.and_eq_true _ _).mp hk
    exact beq_iff_eq.mp this.1
  have hinp : nd.inputs = [] := by
    have := (Bool.and_eq_true _ _).mp hk
    exact List.isEmpty_iff.mp this.2
  exact placeholder_features_defining nd hop hinp

/-- C9 witness: the amended statement at the placeholder node of gView. -/
theorem C9_witness :
    sixTrueCount
      { features_propagating := false, features_defining := true,
        shared_input_features := false, flatten := false, squeeze := false,
        features_concatenate := false, untouchable := false,
        zero_or_one_input := true } ≤ 1 ∧
    (isInputNode gView 0 = true →
      NodeFlags.features_defining
        { features_propagating := false, features_defining := true,
          shared_input_features := false, flatten := false, squeeze := false,
          features_concatenate := false, untouchable := false,
          zero_or_one_input := true } = true) := by
  exact C9_amended_theorem gView 20 [] flmView 0 _ rfl rfl

/-- C10: a call_function node whose target is one of the four add or sub
functions but which has at most one tensor input is not a shared-input op,
carries none of the six classifying flags, and absent extension rules the
feature-calculator pass raises the unsupported-node error when it pops the
node with the predecessor calculators present. -/
theorem C10_theorem (nd : Node) (t : FuncTarget) (g : Graph)
    (fl : MetaMap NodeFlags) (i : Nat) (st : MetaMap FeaturesCalculator)
    (hop : nd.op = .callFunction t)
    (ht : t = .torchAdd ∨ t = .operatorAdd ∨ t = .torchSub ∨ t = .operatorSub)
    (hone : nd.inputs.length ≤ 1)
    (hget : g.get? i = some nd)
    (hfl : fl i = some (nodeProperties nd))
    (hpreds : ∀ p ∈ nd.inputs, (st p).isSome = true) :
    is_shared_input_features_op nd = false ∧
    sixTrueCount (nodeProperties nd) = 0 ∧
    featuresCalcBody g fl [] i st = .error (.unsupportedNode i) := by
  have hzero : is_zero_or_one_input_op nd = true := by
    simp [is_zero_or_one_input_op, hone]
  have h3 : is_shared_input_features_op nd = false := by
    simp [is_shared_input_features_op, hzero]
  have h1 : is_features_propagating_op nd = false := by
    rcases ht with rfl | rfl | rfl | rfl <;> simp [is_features_propagating_op, hop]
  have h2 : is_features_defining_op nd = false := by
    rcases ht with rfl | rfl | rfl | rfl <;> simp [is_features_defining_op, hop]
  have h4 : is_flatten nd = false := by
    rcases ht with rfl | rfl | rfl | rfl <;> simp [is_flatten, hop]
  have h5 : is_squeeze nd = false := by
    rcases ht with rfl | rfl | rfl | rfl <;> simp [is_squeeze, hop]
  have h6 : is_features_concatenate nd = false := by
    rcases ht with rfl | rfl | rfl | rfl <;> simp [is_features_concatenate, hop]
  refine ⟨h3, ?_, calcBody_unsupported st hget hfl hpreds h1 h2 h3 h4 h5 h6⟩
  simp [sixTrueCount, nodeProperties, h1, h2, h3, h4, h5, h6]

/-- C10 witness: the single-tensor-input torch add node of gOneAdd. -/
theorem C10_witness :
    is_shared_input_features_op
      (mkNode (.callFunction .torchAdd) [0] [.anode 0, .aint 1] []
        (some [1, 3, 40])) = false ∧
    sixTrueCount (nodeProperties
      (mkNode (.callFunction .torchAdd) [0] [.anode 0, .aint 1] []
        (some [1, 3, 40]))) = 0 ∧
    featuresCalcBody gOneAdd flmOneAdd []
      1 (mset emptyMeta 0 (FeaturesCalculator.const 3)) =
      .error (.unsupportedNode 1) := by
  exact C10_theorem
    (mkNode (.callFunction .torchAdd) [0] [.anode 0, .aint 1] [] (some [1, 3, 40]))
    .torchAdd gOneAdd flmOneAdd 1
    (mset emptyMeta 0 (FeaturesCalculator.const 3))
    rfl (Or.inl rfl) (by decide) rfl rfl
    (by decide)

theorem isNone_iff_not_isSome {α : Type} (o : Option α) :
    o.isNone = true ↔ ¬ o.isSome = true := by
  cases o <;> simp

theorem any_congr_mem {α : Type} {l : List α} {f h : α → Bool}
    (hfg : ∀ x ∈ l, f x = h x) : l.any f = l.any h := by
  induction l with
  | nil => rfl
  | cons a as ih =>
      simp only [List.any_cons]
      rw [hfg a (by simp), ih (fun x hx => hfg x (by simp [hx]))]

theorem gatherCalcs_congr {st1 st2 : MetaMap FeaturesCalculator} :
    ∀ {l : List Nat}, (∀ p ∈ l, st1 p = st2 p) →
      gatherCalcs st1 l = gatherCalcs st2 l := by
  intro l
  induction l with
  | nil => intro _; rfl
  | cons a as ih =>
      intro hagree
      unfold gatherCalcs
      rw [hagree a (by simp), ih (fun p hp => hagree p (by simp [hp]))]

theorem calcStep_congr {g : Graph} {rules : List ExtraRule} {i : Nat}
    {nd : Node} {flags : NodeFlags} {st1 st2 : MetaMap FeaturesCalculator}
    (hagree : ∀ p ∈ nd.inputs, st1 p = st2 p) :
    calcStep g rules i nd flags st1 = calcStep g rules i nd flags st2 := by
  unfold calcStep
  cases firstRule rules nd with
  | some fc => rfl
  | none =>
      simp only
      cases hinp : nd.inputs with
      | nil => rfl
      | cons p rest =>
          have hp : st1 p = st2 p := hagree p (by simp [hinp])
          have hall : gatherCalcs st1 nd.inputs = gatherCalcs st2 nd.inputs :=
            gatherCalcs_congr hagree
          rw [hinp] at hall
          simp only [hp, hall]

theorem calcBody_skip {g : Graph} {fl : MetaMap NodeFlags}
    {rules : List ExtraRule} {i : Nat} {nd : Node}
    {st : MetaMap FeaturesCalculator} (hget : g.get? i = some nd)
    (hskip : nd.inputs.any (fun p => (st p).isNone) = true) :
    featuresCalcBody g fl rules i st = .ok (st, false) := by
  unfold featuresCalcBody
  rw [hget]
  dsimp only
  rw [if_pos hskip]

theorem calcBody_proc {g : Graph} {fl : MetaMap NodeFlags}
    {rules : List ExtraRule} {i : Nat} {nd : Node} {flags : NodeFlags}
    {fc : FeaturesCalculator} {st : MetaMap FeaturesCalculator}
    (hget : g.get? i = some nd)
    (hskip : nd.inputs.any (fun p => (st p).isNone) = false)
    (hfl : fl i = some flags)
    (hstep : calcStep g rules i nd flags st = .ok fc) :
    featuresCalcBody g fl rules i st = .ok (mset st i fc, true) := by
  unfold featuresCalcBody
  rw [hget]
  dsimp only
  rw [if_neg (by simp [hskip]), hfl]
  dsimp only
  rw [hstep]

theorem calcBody_cases {g : Graph} {fl : MetaMap NodeFlags}
    {rules : List ExtraRule} {i : Nat} {st st' : MetaMap FeaturesCalculator}
    {app : Bool} (h : featuresCalcBody g fl rules i st = .ok (st', app)) :
    ∃ nd, g.get? i = some nd ∧
      ((st' = st ∧ app = false ∧
          nd.inputs.any (fun p => (st p).isNone) = true) ∨
        (∃ flags fc, fl i = some flags ∧
          nd.inputs.any (fun p => (st p).isNone) = false ∧
          calcStep g rules i nd flags st = .ok fc ∧
          st' = mset st i fc ∧ app = true)) := by
  unfold featuresCalcBody at h
  cases hget : g.get? i with
  | none => rw [hget] at h; cases h
  | some nd =>
      rw [hget] at h
      dsimp only at h
      refine ⟨nd, rfl, ?_⟩
      by_cases hskip : nd.inputs.any (fun p => (st p).isNone) = true
      · rw [if_pos hskip] at h
        cases h
        exact Or.inl ⟨rfl, rfl, hskip⟩
      · rw [if_neg (by simpa using hskip)] at h
        cases hfl : fl i with
        | none => rw [hfl] at h; cases h
        | some flags =>
            rw [hfl] at h
            dsimp only at h
            cases hcs : calcStep g rules i nd flags st with
            | error e => rw [hcs] at h; cases h
            | ok fc =>
                rw [hcs] at h
                cases h
                exact Or.inr ⟨flags, fc, rfl, by simpa using hskip, hcs, rfl, rfl⟩

theorem flattenArgsOk_spec {g : Graph} {nd : Node}
    (h : flattenArgsOk g nd = true) :
    ∃ p rest s sd ed, nd.inputs = p :: rest ∧
      (g.get? p).bind Node.shape = some s ∧
      try_get_args nd 1 "start_dim" (.aint 0) = .aint sd ∧
      try_get_args nd 2 "end_dim" (.aint (-1)) = .aint ed ∧
      ¬(sd = 0 ∨ (s.length : Int) - sd = 0) := by
  unfold flattenArgsOk at h
  cases hinp : nd.inputs with
  | nil => rw [hinp] at h; exact Bool.noConfusion h
  | cons p rest =>
      rw [hinp] at h
      dsimp only at h
      cases hsh : (g.get? p).bind Node.shape with
      | none => rw [hsh] at h; exact Bool.noConfusion h
      | some s =>
          rw [hsh] at h
          dsimp only at h
          cases hsd : try_get_args nd 1 "start_dim" (.aint 0) with
          | anode k => rw [hsd] at h; exact Bool.noConfusion h
          | anone => rw [hsd] at h; exact Bool.noConfusion h
          | aint sd =>
              rw [hsd] at h
              cases hed : try_get_args nd 2 "end_dim" (.aint (-1)) with
              | anode k => rw [hed] at h; exact Bool.noConfusion h
              | anone => rw [hed] at h; exact Bool.noConfusion h
              | aint ed =>
                  rw [hed] at h
                  dsimp only at h
                  simp only [Bool.and_eq_true, Bool.not_eq_true',
                    beq_eq_false_iff_ne] at h
                  exact ⟨p, rest, s, sd, ed, rfl, hsh, rfl, rfl,
                    fun h0 => h0.elim h.1 h.2⟩

theorem squeezeArgsOk_spec {g : Graph} {nd : Node}
    (h : squeezeArgsOk g nd = true) :
    ∃ p rest s d, nd.inputs = p :: rest ∧
      (g.get? p).bind Node.shape = some s ∧
      try_get_args nd 1 "dim" .anone = .aint d ∧
      ¬(d = 0 ∨ (s.length : Int) - d = 0) ∧
      ((d = 1 ∨ (s.length : Int) - d = 1) → 3 ≤ s.length) := by
  unfold squeezeArgsOk at h
  cases hinp : nd.inputs with
  | nil => rw [hinp] at h; exact Bool.noConfusion h
  | cons p rest =>
      rw [hinp] at h
      dsimp only at h
      cases hsh : (g.get? p).bind Node.shape with
      | none => rw [hsh] at h; exact Bool.noConfusion h
      | some s =>
          rw [hsh] at h
          dsimp only at h
          cases hd : try_get_args nd 1 "dim" .anone with
          | anode k => rw [hd] at h; exact Bool.noConfusion h
          | anone => rw [hd] at h; exact Bool.noConfusion h
          | aint d =>
              rw [hd] at h
              dsimp only at h
              simp only [Bool.and_eq_true, Bool.not_eq_true',
                beq_eq_false_iff_ne] at h
              obtain ⟨⟨h1, h2⟩, h3⟩ := h
              refine ⟨p, rest, s, d, rfl, hsh, rfl, fun h0 => h0.elim h1 h2, ?_⟩
              intro hch
              rw [if_pos hch] at h3
              exact of_decide_eq_true h3

theorem goodNode_spec {g : Graph} {nd : Node} (h : goodNode g nd = true) :
    (∀ i ∈ nd.inputs, i < g.length) ∧
    (nd.op = .placeholder → nd.inputs = []) ∧
    (nd.op ≠ .placeholder → nd.inputs ≠ []) ∧
    ((nodeProperties nd).flatten || (nodeProperties nd).squeeze ||
      (nodeProperties nd).features_concatenate ||
      (nodeProperties nd).shared_input_features ||
      (nodeProperties nd).features_defining ||
      (nodeProperties nd).features_propagating) = true ∧
    ((nodeProperties nd).flatten = true → flattenArgsOk g nd = true) ∧
    ((nodeProperties nd).squeeze = true → squeezeArgsOk g nd = true) ∧
    ((nodeProperties nd).features_defining = true →
      ∃ s, nd.shape = some s ∧ 2 ≤ s.length) := by
  unfold goodNode at h
  rw [Bool.and_eq_true, Bool.and_eq_true] at h
  obtain ⟨⟨hval, hinp⟩, hbig⟩ := h
  simp only [Bool.and_eq_true] at hbig
  obtain ⟨⟨⟨hsix, hfa⟩, hsq⟩, hdf⟩ := hbig
  refine ⟨?_, ?_, ?_, hsix, ?_, ?_, ?_⟩
  · intro i hi
    exact of_decide_eq_true (List.all_eq_true.mp hval i hi)
  · intro hop
    rw [hop] at hinp
    exact List.isEmpty_iff.mp hinp
  · intro hop hnil
    cases hopc : nd.op <;> rw [hopc] at hinp <;>
      first
        | (exact hop hopc)
        | (rw [hnil] at hinp; exact Bool.noConfusion hinp)
  · intro hf
    rw [Bool.or_eq_true] at hfa
    rcases hfa with hh | hh
    · rw [hf] at hh; exact Bool.noConfusion hh
    · exact hh
  · intro hf
    rw [Bool.or_eq_true] at hsq
    rcases hsq with hh | hh
    · rw [hf] at hh; exact Bool.noConfusion hh
    · exact hh
  · intro hf
    rw [Bool.or_eq_true] at hdf
    rcases hdf with hh | hh
    · rw [hf] at hh; exact Bool.noConfusion hh
    · cases hs : nd.shape with
      | none => rw [hs] at hh; exact Bool.noConfusion hh
      | some s =>
          rw [hs] at hh
          exact ⟨s, rfl, of_decide_eq_true hh⟩

theorem gatherCalcs_total {st : MetaMap FeaturesCalculator} :
    ∀ {l : List Nat}, (∀ p ∈ l, (st p).isSome = true) →
      ∃ cs, gatherCalcs st l = some cs := by
  intro l
  induction l with
  | nil => intro _; exact ⟨[], rfl⟩
  | cons a as ih =>
      intro hall
      obtain ⟨c, hc⟩ := Option.isSome_iff_exists.mp (hall a (by simp))
      obtain ⟨cs, hcs⟩ := ih (fun p hp => hall p (by simp [hp]))
      exact ⟨c :: cs, by unfold gatherCalcs; rw [hc, hcs]⟩

theorem shared_inputs_nonempty {nd : Node}
    (h : is_shared_input_features_op nd = true) : nd.inputs ≠ [] := by
  intro hnil
  unfold is_shared_input_features_op at h
  rw [if_pos (by simp [is_zero_or_one_input_op, hnil])] at h
  exact Bool.noConfusion h

theorem propagating_not_placeholder {nd : Node}
    (h : is_features_propagating_op nd = true) : nd.op ≠ .placeholder := by
  intro hop
  unfold is_features_propagating_op at h
  rw [hop] at h
  exact Bool.noConfusion h

theorem get?_of_lt_len {α : Type} {l : List α} {k : Nat} (h : k < l.length) :
    ∃ a, l.get? k = some a :=
  ⟨l.get ⟨k, h⟩, List.get?_eq_get h⟩

theorem calcStep_ok {g : Graph} {rules : List ExtraRule} {i : Nat} {nd : Node}
    {st : MetaMap FeaturesCalculator}
    (hgood : goodNode g nd = true)
    (hpreds : ∀ p ∈ nd.inputs, (st p).isSome = true) :
    ∃ fc, calcStep g rules i nd (nodeProperties nd) st = .ok fc := by
  obtain ⟨hin, hpl, hnpl, hsix, hfa, hsq, hdf⟩ := goodNode_spec hgood
  unfold calcStep
  cases firstRule rules nd with
  | some fc => exact ⟨fc, rfl⟩
  | none =>
      dsimp only
      by_cases hflat : (nodeProperties nd).flatten = true
      · rw [if_pos hflat]
        obtain ⟨p, rest, s, sd, ed, hinp, hsh, hsd, hed, hok⟩ :=
          flattenArgsOk_spec (hfa hflat)
        rw [hinp]
        dsimp only
        obtain ⟨ifc, hifc⟩ := Option.isSome_iff_exists.mp
          (hpreds p (by simp [hinp]))
        rw [hifc, hsh]
        dsimp only
        rw [hsd, hed]
        dsimp only
        rw [if_neg hok]
        by_cases hch : sd = 1 ∨ (s.length : Int) - sd = 1
        · rw [if_pos hch]; exact ⟨_, rfl⟩
        · rw [if_neg hch]; exact ⟨_, rfl⟩
      · rw [if_neg hflat]
        by_cases hsqz : (nodeProperties nd).squeeze = true
        · rw [if_pos hsqz]
          obtain ⟨p, rest, s, d, hinp, hsh, hd, hok, hlen⟩ :=
            squeezeArgsOk_spec (hsq hsqz)
          rw [hinp]
          dsimp only
          obtain ⟨ifc, hifc⟩ := Option.isSome_iff_exists.mp
            (hpreds p (by simp [hinp]))
          rw [hifc, hsh]
          dsimp only
          rw [hd]
          dsimp only
          rw [if_neg hok]
          by_cases hch : d = 1 ∨ (s.length : Int) - d = 1
          · rw [if_pos hch]
            obtain ⟨sz, hsz⟩ := get?_of_lt_len (show 2 < s.length by
              have := hlen hch; omega)
            rw [hsz]
            exact ⟨_, rfl⟩
          · rw [if_neg hch]; exact ⟨_, rfl⟩
        · rw [if_neg hsqz]
          by_cases hcc : (nodeProperties nd).features_concatenate = true
          · rw [if_pos hcc]
            obtain ⟨cs, hcs⟩ := gatherCalcs_total hpreds
            rw [hcs]
            exact ⟨_, rfl⟩
          · rw [if_neg hcc]
            by_cases hshr : (nodeProperties nd).shared_input_features = true
            · rw [if_pos hshr]
              have hne : nd.inputs ≠ [] := shared_inputs_nonempty (by
                simpa [nodeProperties] using hshr)
              cases hinp : nd.inputs with
              | nil => exact absurd hinp hne
              | cons p rest =>
                  dsimp only
                  obtain ⟨ifc, hifc⟩ := Option.isSome_iff_exists.mp
                    (hpreds p (by simp [hinp]))
                  rw [hifc]
                  exact ⟨_, rfl⟩
            · rw [if_neg hshr]
              by_cases hdef : (nodeProperties nd).features_defining = true
              · rw [if_pos hdef]
                obtain ⟨s, hs, hslen⟩ := hdf hdef
                rw [hs]
                dsimp only
                obtain ⟨c, hc⟩ := get?_of_lt_len (show 1 < s.length by omega)
                rw [hc]
                exact ⟨_, rfl⟩
              · rw [if_neg hdef]
                by_cases hpr : (nodeProperties nd).features_propagating = true
                · rw [if_pos hpr]
                  have hne : nd.inputs ≠ [] := hnpl (propagating_not_placeholder
                    (by simpa [nodeProperties] using hpr))
                  cases hinp : nd.inputs with
                  | nil => exact absurd hinp hne
                  | cons p rest =>
                      dsimp only
                      obtain ⟨ifc, hifc⟩ := Option.isSome_iff_exists.mp
                        (hpreds p (by simp [hinp]))
                      rw [hifc]
                      exact ⟨_, rfl⟩
                · exfalso
                  simp [hflat, hsqz, hcc, hshr, hdef, hpr] at hsix

theorem goodGraph_spec {g : Graph} (h : goodGraph g = true) :
    (∀ k nd, g.get? k = some nd → goodNode g nd = true) ∧
    (∀ j, j < g.length → ∀ p ∈ nodeInputs g j, ∀ pn, g.get? p = some pn →
      is_shared_input_features_op pn = false) := by
  unfold goodGraph at h
  rw [Bool.and_eq_true] at h
  obtain ⟨hall, hns⟩ := h
  constructor
  · intro k nd hget
    exact List.all_eq_true.mp hall nd (List.get?_mem hget)
  · intro j hj p hp pn hpget
    have hj' := List.all_eq_true.mp hns j (List.mem_range.mpr hj)
    have hp' := List.all_eq_true.mp hj' p hp
    rw [hpget] at hp'
    simpa using hp'

theorem ranked_closure (g : Graph) (rank : Nat → Nat)
    (hrk : ∀ j, j < g.length → ∀ i ∈ nodeInputs g j, rank i < rank j)
    (hvin : ∀ j, j < g.length → ∀ p ∈ nodeInputs g j, p < g.length)
    (P : Nat → Prop)
    (hstep : ∀ k, k < g.length → P k ∨ ∃ p ∈ nodeInputs g k, ¬ P p) :
    ∀ k, k < g.length → P k := by
  have aux : ∀ r k, k < g.length → rank k < r → P k := by
    intro r
    induction r with
    | zero => intro k _ h; omega
    | succ r ih =>
        intro k hk hr
        rcases hstep k hk with h | ⟨p, hp, hnp⟩
        · exact h
        · exact absurd (ih p (hvin k hk p hp)
            (by have := hrk k hk p hp; omega)) hnp
  intro k hk
  exact aux (rank k + 1) k hk (by omega)

theorem mset_isSome_mono {α : Type} {st : MetaMap α} {n : Nat} {v : α}
    {k : Nat} (h : (st k).isSome = true) : ((mset st n v) k).isSome = true := by
  by_cases hk : k = n
  · subst hk; rw [mset_self]; rfl
  · rw [mset_other st n v hk]; exact h

theorem preds_some_of_not_any {α : Type} {st : MetaMap α} {l : List Nat}
    (h : l.any (fun p => (st p).isNone) = false) :
    ∀ p ∈ l, (st p).isSome = true := by
  intro p hp
  have hne := List.any_eq_false.mp h p hp
  cases ho : st p with
  | none => rw [ho] at hne; simp at hne
  | some v => simp [ho]

theorem nodeInputs_eq {g : Graph} {k : Nat} {nd : Node}
    (h : g.get? k = some nd) : nodeInputs g k = nd.inputs := by
  unfold nodeInputs
  rw [h]

theorem calc_completes (g : Graph) (rules : List ExtraRule)
    (fl : MetaMap NodeFlags) (rank : Nat → Nat)
    (hrb : ∀ n, n < g.length → rank n < g.length)
    (hrk : ∀ j, j < g.length → ∀ i ∈ nodeInputs g j, rank i < rank j)
    (hgood : goodGraph g = true)
    (hfl : ∀ k, k < g.length → fl k = (g.get? k).map nodeProperties) :
    ∃ cm, add_features_calculator g rules fl emptyMeta
        (qMeasure g rank (get_input_nodes g)) = .ok ([], cm) ∧
      ∀ k, k < g.length → (cm k).isSome = true := by
  obtain ⟨hgn, _⟩ := goodGraph_spec hgood
  have hvin : ∀ j, j < g.length → ∀ p ∈ nodeInputs g j, p < g.length := by
    intro j hj p hp
    obtain ⟨nd, hget⟩ := get?_of_lt_len hj
    rw [nodeInputs_eq hget] at hp
    exact (goodNode_spec (hgn j nd hget)).1 p hp
  have main := runLoop_term g (featuresCalcBody g fl rules) rank hrb hrk
    (fun q st =>
      (∀ n ∈ q, n < g.length) ∧
      (∀ k, k < g.length → (st k).isSome = true ∨
        (∃ p ∈ nodeInputs g k, (st p).isNone = true) ∨ k ∈ q))
    (fun q st hI => hI.1) ?_
    (qMeasure g rank (get_input_nodes g)) (get_input_nodes g) emptyMeta
    ?_ (le_refl _)
  · obtain ⟨cm, hrun, _, hfin⟩ := main
    refine ⟨cm, hrun, ?_⟩
    have hP := ranked_closure g rank hrk hvin (fun k => (cm k).isSome = true) ?_
    · exact hP
    · intro k hk
      rcases hfin k hk with h | ⟨p, hp, hnone⟩ | h
      · exact Or.inl h
      · exact Or.inr ⟨p, hp, (isNone_iff_not_isSome _).mp hnone⟩
      · simp at h
  · intro n rest st hI
    have hn : n < g.length := hI.1 n (by simp)
    obtain ⟨nd, hget⟩ := get?_of_lt_len hn
    have hgood_n := hgn n nd hget
    by_cases hskip : nd.inputs.any (fun p => (st p).isNone) = true
    · refine ⟨st, false, calcBody_skip hget hskip, ?_, ?_⟩
      · intro m hm
        simp only [if_neg (Bool.false_ne_true)] at hm
        rw [List.append_nil] at hm
        exact hI.1 m (by simp [hm])
      · intro k hk
        rcases hI.2 k hk with h | h | h
        · exact Or.inl h
        · exact Or.inr (Or.inl h)
        · rcases List.mem_cons.mp h with rfl | hmem
          · obtain ⟨p, hp, hpn⟩ := List.any_eq_true.mp hskip
            exact Or.inr (Or.inl ⟨p, by rw [nodeInputs_eq hget]; exact hp, hpn⟩)
          · exact Or.inr (Or.inr (by
              simp only [if_neg (Bool.false_ne_true)]
              rw [List.append_nil]
              exact hmem))
    · have hnos : nd.inputs.any (fun p => (st p).isNone) = false :=
        Bool.eq_false_iff.mpr hskip
      have hpreds := preds_some_of_not_any hnos
      obtain ⟨fc, hfc⟩ := calcStep_ok hgood_n hpreds
      have hflags : fl n = some (nodeProperties nd) := by
        rw [hfl n hn, hget]
        rfl
      refine ⟨mset st n fc, true, calcBody_proc hget hnos hflags hfc, ?_, ?_⟩
      · intro m hm
        simp only [if_pos rfl] at hm
        rcases List.mem_append.mp hm with hm | hm
        · exact hI.1 m (by simp [hm])
        · exact (mem_successors.mp hm).1
      · intro k hk
        rcases hI.2 k hk with h | ⟨p, hp, hpn⟩ | h
        · exact Or.inl (mset_isSome_mono h)
        · by_cases hpn' : p = n
          · subst hpn'
            refine Or.inr (Or.inr ?_)
            simp only [if_pos rfl]
            exact List.mem_append.mpr (Or.inr (mem_successors.mpr ⟨hk, hp⟩))
          · exact Or.inr (Or.inl ⟨p, hp, by rw [mset_other st n fc hpn']; exact hpn⟩)
        · rcases List.mem_cons.mp h with rfl | hmem
          · exact Or.inl (by rw [mset_self]; rfl)
          · exact Or.inr (Or.inr (by
              simp only [if_pos rfl]
              exact List.mem_append.mpr (Or.inl hmem)))
  · constructor
    · intro n hn
      exact (mem_get_input_nodes.mp hn).1
    · intro k hk
      obtain ⟨nd, hget⟩ := get?_of_lt_len hk
      by_cases hop : nd.op = .placeholder
      · exact Or.inr (Or.inr (mem_get_input_nodes.mpr ⟨hk, nd, hget, hop⟩))
      · have hne := (goodNode_spec (hgn k nd hget)).2.2.1 hop
        cases hinp : nd.inputs with
        | nil => exact absurd hinp hne
        | cons p rest =>
            exact Or.inr (Or.inl ⟨p, by
              rw [nodeInputs_eq hget, hinp]; simp, rfl⟩)

theorem annot_completes (g : Graph) (rank : Nat → Nat)
    (hrb : ∀ n, n < g.length → rank n < g.length)
    (hrk : ∀ j, j < g.length → ∀ i ∈ nodeInputs g j, rank i < rank j)
    (hgood : goodGraph g = true) :
    ∃ flm, add_node_properties g emptyMeta
        (qMeasure g rank (get_input_nodes g)) = .ok ([], flm) ∧
      ∀ k, k < g.length → flm k = (g.get? k).map nodeProperties := by
  obtain ⟨hgn, _⟩ := goodGraph_spec hgood
  have hvin : ∀ j, j < g.length → ∀ p ∈ nodeInputs g j, p < g.length := by
    intro j hj p hp
    obtain ⟨nd, hget⟩ := get?_of_lt_len hj
    rw [nodeInputs_eq hget] at hp
    exact (goodNode_spec (hgn j nd hget)).1 p hp
  have main := runLoop_term g (nodePropsBody g) rank hrb hrk
    (fun q st =>
      (∀ n ∈ q, n < g.length) ∧
      (∀ k, (st k).isSome = true → st k = (g.get? k).map nodeProperties) ∧
      (∀ k, k < g.length → (st k).isSome = true ∨
        (∃ p ∈ nodeInputs g k, (st p).isNone = true) ∨ k ∈ q))
    (fun q st hI => hI.1) ?_
    (qMeasure g rank (get_input_nodes g)) (get_input_nodes g) emptyMeta
    ?_ (le_refl _)
  · obtain ⟨flm, hrun, _, hcor, hfin⟩ := main
    refine ⟨flm, hrun, ?_⟩
    have hP := ranked_closure g rank hrk hvin
      (fun k => (flm k).isSome = true) ?_
    · intro k hk
      exact hcor k (hP k hk)
    · intro k hk
      rcases hfin k hk with h | ⟨p, hp, hnone⟩ | h
      · exact Or.inl h
      · exact Or.inr ⟨p, hp, (isNone_iff_not_isSome _).mp hnone⟩
      · simp at h
  · intro n rest st hI
    have hn : n < g.length := hI.1 n (by simp)
    obtain ⟨nd, hget⟩ := get?_of_lt_len hn
    refine ⟨mset st n (nodeProperties nd), true, nodePropsBody_eq st hget,
      ?_, ?_, ?_⟩
    · intro m hm
      simp only [if_pos rfl] at hm
      rcases List.mem_append.mp hm with hm | hm
      · exact hI.1 m (by simp [hm])
      · exact (mem_successors.mp hm).1
    · intro k hk
      by_cases hkn : k = n
      · subst hkn
        rw [mset_self, hget]
        rfl
      · rw [mset_other st n _ hkn] at hk ⊢
        exact hI.2.1 k hk
    · intro k hk
      rcases hI.2.2 k hk with h | ⟨p, hp, hpn⟩ | h
      · exact Or.inl (mset_isSome_mono h)
      · by_cases hpn' : p = n
        · subst hpn'
          refine Or.inr (Or.inr ?_)
          simp only [if_pos rfl]
          exact List.mem_append.mpr (Or.inr (mem_successors.mpr ⟨hk, hp⟩))
        · exact Or.inr (Or.inl ⟨p, hp, by
            rw [mset_other st n _ hpn']; exact hpn⟩)
      · rcases List.mem_cons.mp h with rfl | hmem
        · exact Or.inl (by rw [mset_self]; rfl)
        · exact Or.inr (Or.inr (by
            simp only [if_pos rfl]
            exact List.mem_append.mpr (Or.inl hmem)))
  · refine ⟨?_, ?_, ?_⟩
    · intro n hn
      exact (mem_get_input_nodes.mp hn).1
    · intro k hk
      simp [emptyMeta] at hk
    · intro k hk
      obtain ⟨nd, hget⟩ := get?_of_lt_len hk
      by_cases hop : nd.op = .placeholder
      · exact Or.inr (Or.inr (mem_get_input_nodes.mpr ⟨hk, nd, hget, hop⟩))
      · have hne := (goodNode_spec (hgn k nd hget)).2.2.1 hop
        cases hinp : nd.inputs with
        | nil => exact absurd hinp hne
        | cons p rest =>
            exact Or.inr (Or.inl ⟨p, by
              rw [nodeInputs_eq hget, hinp]; simp, rfl⟩)

/-- C7 amended: when the feature-calculator pass pops a node with a
predecessor that has no calculator yet, the node is dropped: the body
leaves the state unchanged and asks for no successor enqueueing, so the
loop simply continues on the remaining queue (the popped node is not
re-appended at the tail); the node is enqueued again each time one of its
predecessors is processed, and on a finite acyclic graph whose nodes the
pass can process, the pass still terminates with every node carrying a
calculator. -/
theorem C7_amended_theorem (g : Graph) (rules : List ExtraRule)
    (fl : MetaMap NodeFlags) (rank : Nat → Nat) (n : Nat) (rest : List Nat)
    (st : MetaMap FeaturesCalculator) (nd : Node) (fuel : Nat)
    (hrb : ∀ m, m < g.length → rank m < g.length)
    (hrk : ∀ j, j < g.length → ∀ i ∈ nodeInputs g j, rank i < rank j)
    (hgood : goodGraph g = true)
    (hfl : ∀ k, k < g.length → fl k = (g.get? k).map nodeProperties)
    (hget : g.get? n = some nd)
    (hskip : nd.inputs.any (fun p => (st p).isNone) = true) :
    featuresCalcBody g fl rules n st = .ok (st, false) ∧
    runLoop g (featuresCalcBody g fl rules) (fuel + 1) (n :: rest) st =
      runLoop g (featuresCalcBody g fl rules) fuel rest st ∧
    ∃ cm, add_features_calculator g rules fl emptyMeta
        (qMeasure g rank (get_input_nodes g)) = .ok ([], cm) ∧
      ∀ k, k < g.length → (cm k).isSome = true := by
  refine ⟨calcBody_skip hget hskip, ?_, calc_completes g rules fl rank hrb hrk hgood hfl⟩
  simp only [runLoop, calcBody_skip hget hskip]
  simp

/-- C7 witness: the amended statement on gDefer at the moment node 3 is
popped while predecessor 2 has no calculator, with the identity ranking. -/
theorem C7_witness :
    featuresCalcBody gDefer flmDefer [] 3 deferState2 = .ok (deferState2, false) ∧
    runLoop gDefer (featuresCalcBody gDefer flmDefer []) (0 + 1)
      (3 :: [2]) deferState2 =
      runLoop gDefer (featuresCalcBody gDefer flmDefer []) 0 [2] deferState2 ∧
    ∃ cm, add_features_calculator gDefer [] flmDefer emptyMeta
        (qMeasure gDefer (fun j => j) (get_input_nodes gDefer)) = .ok ([], cm) ∧
      ∀ k, k < gDefer.length → (cm k).isSome = true := by
  exact C7_amended_theorem gDefer [] flmDefer (fun j => j) 3 [2] deferState2
    (mkNode (.callFunction .torchAdd) [2, 0] [.anode 2, .anode 0] []
      (some [1, 8, 40])) 0
    (by decide) (by decide) (by decide) (by decide) rfl (by decide)

theorem assocBody_write {g : Graph} {fl : MetaMap NodeFlags} {i : Nat}
    {nd : Node} {st : MetaMap SetBy} {v : SetBy}
    (hget : g.get? i = some nd)
    (hdec : assocDecision g fl i nd st = .ok (some v)) :
    associateBody g fl i st = .ok (mset st i v, true) := by
  unfold associateBody
  rw [hget]
  dsimp only
  rw [hdec]

theorem assocBody_skip {g : Graph} {fl : MetaMap NodeFlags} {i : Nat}
    {nd : Node} {st : MetaMap SetBy}
    (hget : g.get? i = some nd)
    (hdec : assocDecision g fl i nd st = .ok none) :
    associateBody g fl i st = .ok (st, true) := by
  unfold associateBody
  rw [hget]
  dsimp only
  rw [hdec]

theorem assocDecision_nil {g : Graph} {fl : MetaMap NodeFlags} {i : Nat}
    {nd : Node} {st : MetaMap SetBy} (hinp : nd.inputs = []) :
    assocDecision g fl i nd st = .ok (some (.single i)) := by
  unfold assocDecision
  rw [hinp]

theorem assocDecision_concat_skip {g : Graph} {fl : MetaMap NodeFlags}
    {i prevId : Nat} {nd : Node} {st : MetaMap SetBy} {rest : List Nat}
    {flags : NodeFlags} (hinp : nd.inputs = prevId :: rest)
    (hfl : fl i = some flags) (hcf : flags.features_concatenate = true)
    (hany : nd.inputs.any (fun w => (st w).isNone) = true) :
    assocDecision g fl i nd st = .ok none := by
  unfold assocDecision
  rw [hinp]
  dsimp only
  rw [hfl]
  dsimp only
  rw [if_pos hcf, ← hinp, if_pos hany]

theorem assocDecision_concat_write {g : Graph} {fl : MetaMap NodeFlags}
    {i prevId : Nat} {nd : Node} {st : MetaMap SetBy} {rest : List Nat}
    {flags : NodeFlags} (hinp : nd.inputs = prevId :: rest)
    (hfl : fl i = some flags) (hcf : flags.features_concatenate = true)
    (hany : nd.inputs.any (fun w => (st w).isNone) = false) :
    assocDecision g fl i nd st = .ok (some (.several nd.inputs)) := by
  unfold assocDecision
  rw [hinp]
  dsimp only
  rw [hfl]
  dsimp only
  rw [if_pos hcf, ← hinp, if_neg (by simp [hany]), hinp]

theorem assocDecision_first_missing {g : Graph} {fl : MetaMap NodeFlags}
    {i prevId : Nat} {nd : Node} {st : MetaMap SetBy} {rest : List Nat}
    {flags : NodeFlags} (hinp : nd.inputs = prevId :: rest)
    (hfl : fl i = some flags) (hcf : flags.features_concatenate = false)
    (hprev : st prevId = none) :
    assocDecision g fl i nd st = .ok none := by
  unfold assocDecision
  rw [hinp]
  dsimp only
  rw [hfl]
  dsimp only
  rw [if_neg (by simp [hcf]), hprev]

theorem assocDecision_write_ok {g : Graph} {fl : MetaMap NodeFlags}
    {i prevId : Nat} {nd prevNode : Node} {st : MetaMap SetBy}
    {rest : List Nat} {flags : NodeFlags} {pv : SetBy}
    (hinp : nd.inputs = prevId :: rest)
    (hfl : fl i = some flags) (hcf : flags.features_concatenate = false)
    (hprev : st prevId = some pv)
    (hpget : g.get? prevId = some prevNode)
    (hpfl : fl prevId = some (nodeProperties prevNode))
    (hpgood : goodNode g prevNode = true)
    (hpns : is_shared_input_features_op prevNode = false) :
    ∃ v, assocDecision g fl i nd st = .ok (some v) := by
  obtain ⟨hin, hpl, hnpl, hsix, hfa, hsq, hdf⟩ := goodNode_spec hpgood
  unfold assocDecision
  rw [hinp]
  dsimp only
  rw [hfl]
  dsimp only
  rw [if_neg (by simp [hcf]), hprev]
  dsimp only
  rw [hpget, hpfl]
  dsimp only
  by_cases hflat : (nodeProperties prevNode).flatten = true
  · rw [if_pos hflat]
    obtain ⟨p, rest', s, sd, ed, hpinp, hpsh, hpsd, _, hok⟩ :=
      flattenArgsOk_spec (hfa hflat)
    rw [hpinp]
    dsimp only
    rw [hpsh]
    dsimp only
    rw [hpsd]
    dsimp only
    rw [if_neg hok]
    by_cases hch : sd = 1 ∨ (s.length : Int) - sd = 1
    · rw [if_pos hch]; exact ⟨_, rfl⟩
    · rw [if_neg hch]; exact ⟨_, rfl⟩
  · rw [if_neg hflat]
    by_cases hsqz : (nodeProperties prevNode).squeeze = true
    · rw [if_pos hsqz]
      obtain ⟨p, rest', s, d, hpinp, hpsh, hpd, hok, _⟩ :=
        squeezeArgsOk_spec (hsq hsqz)
      rw [hpinp]
      dsimp only
      rw [hpsh]
      dsimp only
      rw [hpd]
      dsimp only
      rw [if_neg hok]
      by_cases hch : d = 1 ∨ (s.length : Int) - d = 1
      · rw [if_pos hch]; exact ⟨_, rfl⟩
      · rw [if_neg hch]; exact ⟨_, rfl⟩
    · rw [if_neg hsqz]
      by_cases hcc : (nodeProperties prevNode).features_concatenate = true
      · rw [if_pos hcc]; exact ⟨_, rfl⟩
      · rw [if_neg hcc]
        by_cases hdef : (nodeProperties prevNode).features_defining = true
        · rw [if_pos hdef]; exact ⟨_, rfl⟩
        · rw [if_neg hdef]
          by_cases hpr : (nodeProperties prevNode).features_propagating = true
          · rw [if_pos hpr]; exact ⟨_, rfl⟩
          · exfalso
            have hshr : (nodeProperties prevNode).shared_input_features = false := by
              simp [nodeProperties, hpns]
            simp [hflat, hsqz, hcc, hshr, hdef, hpr] at hsix

theorem assoc_completes (g : Graph) (fl : MetaMap NodeFlags)
    (rank : Nat → Nat)
    (hrb : ∀ n, n < g.length → rank n < g.length)
    (hrk : ∀ j, j < g.length → ∀ i ∈ nodeInputs g j, rank i < rank j)
    (hgood : goodGraph g = true)
    (hfl : ∀ k, k < g.length → fl k = (g.get? k).map nodeProperties) :
    ∃ sm, associate_input_features g fl emptyMeta
        (qMeasure g rank (get_input_nodes g)) = .ok ([], sm) ∧
      ∀ k, k < g.length → (sm k).isSome = true := by
  obtain ⟨hgn, hns⟩ := goodGraph_spec hgood
  have hvin : ∀ j, j < g.length → ∀ p ∈ nodeInputs g j, p < g.length := by
    intro j hj p hp
    obtain ⟨nd, hget⟩ := get?_of_lt_len hj
    rw [nodeInputs_eq hget] at hp
    exact (goodNode_spec (hgn j nd hget)).1 p hp
  have main := runLoop_term g (associateBody g fl) rank hrb hrk
    (fun q st =>
      (∀ n ∈ q, n < g.length) ∧
      (∀ k, k < g.length → (st k).isSome = true ∨
        (∃ p ∈ nodeInputs g k, (st p).isNone = true) ∨ k ∈ q))
    (fun q st hI => hI.1) ?_
    (qMeasure g rank (get_input_nodes g)) (get_input_nodes g) emptyMeta
    ?_ (le_refl _)
  · obtain ⟨sm, hrun, _, hfin⟩ := main
    refine ⟨sm, hrun, ranked_closure g rank hrk hvin _ ?_⟩
    intro k hk
    rcases hfin k hk with h | ⟨p, hp, hnone⟩ | h
    · exact Or.inl h
    · exact Or.inr ⟨p, hp, (isNone_iff_not_isSome _).mp hnone⟩
    · simp at h
  · intro n rest st hI
    have hn : n < g.length := hI.1 n (by simp)
    obtain ⟨nd, hget⟩ := get?_of_lt_len hn
    have hflags : fl n = some (nodeProperties nd) := by
      rw [hfl n hn, hget]
      rfl
    have hqv : ∀ m ∈ rest ++ (if true then successors g n else []),
        m < g.length := by
      intro m hm
      simp only [if_pos rfl] at hm
      rcases List.mem_append.mp hm with hm | hm
      · exact hI.1 m (by simp [hm])
      · exact (mem_successors.mp hm).1
    -- helper for the invariant after a write at n
    have hinv_write : ∀ v : SetBy,
        (∀ k, k < g.length → ((mset st n v) k).isSome = true ∨
          (∃ p ∈ nodeInputs g k, ((mset st n v) p).isNone = true) ∨
          k ∈ rest ++ (if true then successors g n else [])) := by
      intro v k hk
      rcases hI.2 k hk with h | ⟨p, hp, hpn⟩ | h
      · exact Or.inl (mset_isSome_mono h)
      · by_cases hpn' : p = n
        · subst hpn'
          refine Or.inr (Or.inr ?_)
          simp only [if_pos rfl]
          exact List.mem_append.mpr (Or.inr (mem_successors.mpr ⟨hk, hp⟩))
        · exact Or.inr (Or.inl ⟨p, hp, by rw [mset_other st n v hpn']; exact hpn⟩)
      · rcases List.mem_cons.mp h with rfl | hmem
        · exact Or.inl (by rw [mset_self]; rfl)
        · exact Or.inr (Or.inr (by
            simp only [if_pos rfl]
            exact List.mem_append.mpr (Or.inl hmem)))
    -- helper for the invariant after a skip at n, given a witness for n
    have hinv_skip : (∃ p ∈ nodeInputs g n, (st p).isNone = true) →
        (∀ k, k < g.length → (st k).isSome = true ∨
          (∃ p ∈ nodeInputs g k, (st p).isNone = true) ∨
          k ∈ rest ++ (if true then successors g n else [])) := by
      intro hw k hk
      rcases hI.2 k hk with h | h | h
      · exact Or.inl h
      · exact Or.inr (Or.inl h)
      · rcases List.mem_cons.mp h with rfl | hmem
        · exact Or.inr (Or.inl hw)
        · exact Or.inr (Or.inr (by
            simp only [if_pos rfl]
            exact List.mem_append.mpr (Or.inl hmem)))
    cases hinp : nd.inputs with
    | nil =>
        exact ⟨mset st n (.single n), true,
          assocBody_write hget (assocDecision_nil hinp),
          hqv, hinv_write _⟩
    | cons prevId rest' =>
        by_cases hcf : (nodeProperties nd).features_concatenate = true
        · by_cases hany : nd.inputs.any (fun w => (st w).isNone) = true
          · refine ⟨st, true,
              assocBody_skip hget (assocDecision_concat_skip hinp hflags hcf hany),
              hqv, ?_⟩
            obtain ⟨p, hp, hpn⟩ := List.any_eq_true.mp hany
            exact hinv_skip ⟨p, by rw [nodeInputs_eq hget]; exact hp, hpn⟩
          · exact ⟨mset st n (.several nd.inputs), true,
              assocBody_write hget (assocDecision_concat_write hinp hflags hcf
                (Bool.eq_false_iff.mpr hany)),
              hqv, hinv_write _⟩
        · have hcf' : (nodeProperties nd).features_concatenate = false :=
            Bool.eq_false_iff.mpr hcf
          cases hprev : st prevId with
          | none =>
              refine ⟨st, true,
                assocBody_skip hget
                  (assocDecision_first_missing hinp hflags hcf' hprev),
                hqv, ?_⟩
              exact hinv_skip ⟨prevId, by
                rw [nodeInputs_eq hget, hinp]; simp, by rw [hprev]; rfl⟩
          | some pv =>
              have hplt : prevId < g.length := hvin n hn prevId (by
                rw [nodeInputs_eq hget, hinp]; simp)
              obtain ⟨prevNode, hpget⟩ := get?_of_lt_len hplt
              have hpfl : fl prevId = some (nodeProperties prevNode) := by
                rw [hfl prevId hplt, hpget]
                rfl
              have hpns : is_shared_input_features_op prevNode = false :=
                hns n hn prevId (by rw [nodeInputs_eq hget, hinp]; simp)
                  prevNode hpget
              obtain ⟨v, hv⟩ := assocDecision_write_ok hinp hflags hcf' hprev
                hpget hpfl (hgn prevId prevNode hpget) hpns
              exact ⟨mset st n v, true, assocBody_write hget hv, hqv,
                hinv_write _⟩
  · constructor
    · intro n hn
      exact (mem_get_input_nodes.mp hn).1
    · intro k hk
      obtain ⟨nd, hget⟩ := get?_of_lt_len hk
      by_cases hop : nd.op = .placeholder
      · exact Or.inr (Or.inr (mem_get_input_nodes.mpr ⟨hk, nd, hget, hop⟩))
      · have hne := (goodNode_spec (hgn k nd hget)).2.2.1 hop
        cases hinp : nd.inputs with
        | nil => exact absurd hinp hne
        | cons p rest =>
            exact Or.inr (Or.inl ⟨p, by
              rw [nodeInputs_eq hget, hinp]; simp, rfl⟩)

/-- C2 amended: for a finite acyclic graph every node of which is of an
allow-listed kind with valid metadata (shape descriptors present on
features-defining nodes, valid non-batch dimension arguments on reshape
nodes, squeeze carrying its dim) and in which no shared-input combiner has
a successor, the three passes all run to completion without error and every
node ends with flags, a calculator, and a back reference. -/
theorem C2_amended_theorem (g : Graph) (rules : List ExtraRule)
    (rank : Nat → Nat)
    (hrb : ∀ n, n < g.length → rank n < g.length)
    (hrk : ∀ j, j < g.length → ∀ i ∈ nodeInputs g j, rank i < rank j)
    (hgood : goodGraph g = true) :
    ∃ flm cm sm,
      add_node_properties g emptyMeta
        (qMeasure g rank (get_input_nodes g)) = .ok ([], flm) ∧
      add_features_calculator g rules flm emptyMeta
        (qMeasure g rank (get_input_nodes g)) = .ok ([], cm) ∧
      associate_input_features g flm emptyMeta
        (qMeasure g rank (get_input_nodes g)) = .ok ([], sm) ∧
      ∀ k, k < g.length →
        (flm k).isSome = true ∧ (cm k).isSome = true ∧ (sm k).isSome = true := by
  obtain ⟨flm, h1, hflm⟩ := annot_completes g rank hrb hrk hgood
  obtain ⟨cm, h2, hcm⟩ := calc_completes g rules flm rank hrb hrk hgood hflm
  obtain ⟨sm, h3, hsm⟩ := assoc_completes g flm rank hrb hrk hgood hflm
  refine ⟨flm, cm, sm, h1, h2, h3, ?_⟩
  intro k hk
  refine ⟨?_, hcm k hk, hsm k hk⟩
  obtain ⟨nd, hget⟩ := get?_of_lt_len hk
  rw [hflm k hk, hget]
  rfl

/-- C2 witness: the amended statement on the concatenation scenario graph
gC1 with the identity ranking and no extension rules. -/
theorem C2_witness :
    ∃ flm cm sm,
      add_node_properties gC1 emptyMeta
        (qMeasure gC1 (fun j => j) (get_input_nodes gC1)) = .ok ([], flm) ∧
      add_features_calculator gC1 [] flm emptyMeta
        (qMeasure gC1 (fun j => j) (get_input_nodes gC1)) = .ok ([], cm) ∧
      associate_input_features gC1 flm emptyMeta
        (qMeasure gC1 (fun j => j) (get_input_nodes gC1)) = .ok ([], sm) ∧
      ∀ k, k < gC1.length →
        (flm k).isSome = true ∧ (cm k).isSome = true ∧ (sm k).isSome = true := by
  exact C2_amended_theorem gC1 [] (fun j => j) (by decide) (by decide) (by decide)

theorem isSome_false_eq_none {α : Type} {o : Option α}
    (h : ¬ o.isSome = true) : o = none := by
  cases o with
  | none => rfl
  | some v => simp at h

theorem any_isNone_false_of_some {α : Type} {st : MetaMap α} {l : List Nat}
    (h : ∀ p ∈ l, (st p).isSome = true) :
    l.any (fun p => (st p).isNone) = false := by
  rw [List.any_eq_false]
  intro p hp
  rw [isNone_iff_not_isSome]
  simp [h p hp]

theorem calc_run1_facts {g : Graph} {rules : List ExtraRule}
    {fl : MetaMap NodeFlags} {fuel : Nat} {cm : MetaMap FeaturesCalculator}
    (h : add_features_calculator g rules fl emptyMeta fuel = .ok ([], cm)) :
    (∀ k, (cm k).isSome = true →
      featuresCalcBody g fl rules k cm = .ok (cm, true)) ∧
    (∀ k, (k ∈ get_input_nodes g ∨ nodeInputs g k ≠ []) →
      (cm k).isSome = true ∨ ∃ p ∈ nodeInputs g k, (cm p).isNone = true) := by
  have main := runLoop_preserves g (featuresCalcBody g fl rules)
    (fun q st =>
      (∀ k, (st k).isSome = true →
        featuresCalcBody g fl rules k st = .ok (st, true)) ∧
      (∀ k, (k ∈ get_input_nodes g ∨ nodeInputs g k ≠ []) →
        (st k).isSome = true ∨
        (∃ p ∈ nodeInputs g k, (st p).isNone = true) ∨ k ∈ q))
    ?_ fuel (get_input_nodes g) emptyMeta [] cm h ?_
  · refine ⟨main.1, ?_⟩
    intro k hk
    rcases main.2 k hk with hh | hh | hh
    · exact Or.inl hh
    · exact Or.inr hh
    · simp at hh
  · intro n rest st st' app hI hb
    rcases calcBody_cases hb with ⟨nd, hget, hcase⟩
    rcases hcase with ⟨rfl, rfl, hskip⟩ |
      ⟨flags, fc, hflk, hnoskip, hcs, rfl, rfl⟩
    · refine ⟨hI.1, ?_⟩
      intro k hk
      rcases hI.2 k hk with hh | hh | hh
      · exact Or.inl hh
      · exact Or.inr (Or.inl hh)
      · rcases List.mem_cons.mp hh with rfl | hmem
        · obtain ⟨p, hp, hpn⟩ := List.any_eq_true.mp hskip
          exact Or.inr (Or.inl ⟨p, by rw [nodeInputs_eq hget]; exact hp, hpn⟩)
        · exact Or.inr (Or.inr (by
            simp only [if_neg (Bool.false_ne_true)]
            rw [List.append_nil]
            exact hmem))
    · have hpreds := preds_some_of_not_any hnoskip
      by_cases hstn : (st n).isSome = true
      · -- the node was already stored: the new write repeats the old value
        have hfix := hI.1 n hstn
        have hbeq : featuresCalcBody g fl rules n st = .ok (mset st n fc, true) :=
          calcBody_proc hget hnoskip hflk hcs
        rw [hfix] at hbeq
        have hmeq : st = mset st n fc := by
          have := (Except.ok.injEq _ _).mp hbeq
          exact (Prod.mk.injEq _ _ _ _).mp this |>.1
        rw [← hmeq]
        refine ⟨hI.1, ?_⟩
        intro k hk
        rcases hI.2 k hk with hh | hh | hh
        · exact Or.inl hh
        · exact Or.inr (Or.inl hh)
        · rcases List.mem_cons.mp hh with rfl | hmem
          · exact Or.inl hstn
          · exact Or.inr (Or.inr (by
              simp only [if_pos rfl]
              exact List.mem_append.mpr (Or.inl hmem)))
      · have hstn' : st n = none := isSome_false_eq_none hstn
        constructor
        · intro k hk
          by_cases hkn : k = n
          · subst hkn
            have hskip' : nd.inputs.any
                (fun p => ((mset st k fc) p).isNone) = false :=
              any_isNone_false_of_some
                (fun p hp => mset_isSome_mono (hpreds p hp))
            have hagree : ∀ q ∈ nd.inputs, (mset st k fc) q = st q := by
              intro q hq
              refine mset_other st k fc ?_
              intro hqk
              have hsq := hpreds q hq
              rw [hqk, hstn'] at hsq
              simp at hsq
            have hcs' : calcStep g rules k nd flags (mset st k fc) = .ok fc := by
              rw [calcStep_congr hagree]
              exact hcs
            have := calcBody_proc hget hskip' hflk hcs'
            rw [this, mset_eq_self (mset_self st k fc)]
          · have hstk : (st k).isSome = true := by
              rw [← mset_other st n fc hkn]
              exact hk
            have hfixk := hI.1 k hstk
            rcases calcBody_cases hfixk with ⟨ndk, hgetk, hcasek⟩
            rcases hcasek with ⟨_, happ, _⟩ |
              ⟨flagsk, fck, hflkk, hnoskipk, hcsk, hmst, _⟩
            · exact absurd happ (by simp)
            · have hpredsk := preds_some_of_not_any hnoskipk
              have hstkval : st k = some fck := by
                have := congrFun hmst k
                rw [mset_self] at this
                exact this
              have hskip' : ndk.inputs.any
                  (fun p => ((mset st n fc) p).isNone) = false :=
                any_isNone_false_of_some
                  (fun p hp => mset_isSome_mono (hpredsk p hp))
              have hagree : ∀ q ∈ ndk.inputs, (mset st n fc) q = st q := by
                intro q hq
                refine mset_other st n fc ?_
                intro hqn
                have hsq := hpredsk q hq
                rw [hqn, hstn'] at hsq
                simp at hsq
              have hcs' : calcStep g rules k ndk flagsk (mset st n fc) =
                  .ok fck := by
                rw [calcStep_congr hagree]
                exact hcsk
              have := calcBody_proc hgetk hskip' hflkk hcs'
              rw [this]
              have hself : (mset st n fc) k = some fck := by
                rw [mset_other st n fc hkn]
                exact hstkval
              rw [mset_eq_self hself]
        · intro k hk
          rcases hI.2 k hk with hh | ⟨p, hp, hpn⟩ | hh
          · exact Or.inl (mset_isSome_mono hh)
          · by_cases hpn' : p = n
            · subst hpn'
              have hklen : k < g.length := by
                rcases hk with hk | hk
                · exact (mem_get_input_nodes.mp hk).1
                · cases hgk : g.get? k with
                  | none =>
                      exfalso
                      apply hk
                      unfold nodeInputs
                      rw [hgk]
                  | some _ => exact get?_lt hgk
              refine Or.inr (Or.inr ?_)
              simp only [if_pos rfl]
              exact List.mem_append.mpr (Or.inr (mem_successors.mpr ⟨hklen, hp⟩))
            · exact Or.inr (Or.inl ⟨p, hp, by
                rw [mset_other st n fc hpn']; exact hpn⟩)
          · rcases List.mem_cons.mp hh with rfl | hmem
            · exact Or.inl (by rw [mset_self]; rfl)
            · exact Or.inr (Or.inr (by
                simp only [if_pos rfl]
                exact List.mem_append.mpr (Or.inl hmem)))
  · constructor
    · intro k hk
      simp [emptyMeta] at hk
    · intro k hk
      rcases hk with hk | hk
      · exact Or.inr (Or.inr hk)
      · cases hinp : nodeInputs g k with
        | nil => exact absurd hinp hk
        | cons p rest =>
            exact Or.inr (Or.inl ⟨p, by simp, rfl⟩)

theorem annot_run1_facts {g : Graph} {fuel : Nat} {flm : MetaMap NodeFlags}
    (h : add_node_properties g emptyMeta fuel = .ok ([], flm)) :
    (∀ k, (flm k).isSome = true → flm k = (g.get? k).map nodeProperties) ∧
    (∀ s ∈ get_input_nodes g, (flm s).isSome = true) ∧
    (∀ k, (flm k).isSome = true →
      ∀ w ∈ successors g k, (flm w).isSome = true) := by
  have main := runLoop_preserves g (nodePropsBody g)
    (fun q st =>
      (∀ k, (st k).isSome = true → st k = (g.get? k).map nodeProperties) ∧
      (∀ s ∈ get_input_nodes g, (st s).isSome = true ∨ s ∈ q) ∧
      (∀ k, (st k).isSome = true →
        ∀ w ∈ successors g k, (st w).isSome = true ∨ w ∈ q))
    ?_ fuel (get_input_nodes g) emptyMeta [] flm h ?_
  · refine ⟨main.1, ?_, ?_⟩
    · intro s hs
      rcases main.2.1 s hs with hh | hh
      · exact hh
      · simp at hh
    · intro k hk w hw
      rcases main.2.2 k hk w hw with hh | hh
      · exact hh
      · simp at hh
  · intro n rest st st' app hI hb
    cases hget : g.get? n with
    | none => unfold nodePropsBody at hb; rw [hget] at hb; cases hb
    | some nd =>
        rw [nodePropsBody_eq st hget] at hb
        cases hb
        refine ⟨?_, ?_, ?_⟩
        · intro k hk
          by_cases hkn : k = n
          · subst hkn
            rw [mset_self, hget]
            rfl
          · rw [mset_other st n _ hkn] at hk ⊢
            exact hI.1 k hk
        · intro s hs
          rcases hI.2.1 s hs with hh | hh
          · exact Or.inl (mset_isSome_mono hh)
          · rcases List.mem_cons.mp hh with rfl | hmem
            · exact Or.inl (by rw [mset_self]; rfl)
            · exact Or.inr (by
                simp only [if_pos rfl]
                exact List.mem_append.mpr (Or.inl hmem))
        · intro k hk w hw
          by_cases hkn : k = n
          · subst hkn
            exact Or.inr (by
              simp only [if_pos rfl]
              exact List.mem_append.mpr (Or.inr hw))
          · rw [mset_other st n _ hkn] at hk
            rcases hI.2.2 k hk w hw with hh | hh
            · exact Or.inl (mset_isSome_mono hh)
            · rcases List.mem_cons.mp hh with rfl | hmem
              · exact Or.inl (by rw [mset_self]; rfl)
              · exact Or.inr (by
                  simp only [if_pos rfl]
                  exact List.mem_append.mpr (Or.inl hmem))
  · refine ⟨?_, ?_, ?_⟩
    · intro k hk
      simp [emptyMeta] at hk
    · intro s hs
      exact Or.inr hs
    · intro k hk
      simp [emptyMeta] at hk

theorem annot_rerun (g : Graph) (rank : Nat → Nat)
    (hrb : ∀ n, n < g.length → rank n < g.length)
    (hrk : ∀ j, j < g.length → ∀ i ∈ nodeInputs g j, rank i < rank j)
    {fuel : Nat} {flm : MetaMap NodeFlags}
    (h : add_node_properties g emptyMeta fuel = .ok ([], flm)) :
    ∃ flm2, add_node_properties g flm
        (qMeasure g rank (get_input_nodes g)) = .ok ([], flm2) ∧
      ∀ k, flm2 k = flm k := by
  obtain ⟨hcor, hseeds, hsucc⟩ := annot_run1_facts h
  have main := runLoop_term g (nodePropsBody g) rank hrb hrk
    (fun q st =>
      (∀ n ∈ q, n < g.length ∧ (flm n).isSome = true) ∧ st = flm)
    (fun q st hI n hn => (hI.1 n hn).1) ?_
    (qMeasure g rank (get_input_nodes g)) (get_input_nodes g) flm
    ⟨fun n hn => ⟨(mem_get_input_nodes.mp hn).1, hseeds n hn⟩, rfl⟩ (le_refl _)
  · obtain ⟨flm2, hrun, _, heq⟩ := main
    exact ⟨flm2, hrun, fun k => congrFun heq k⟩
  · rintro n rest st ⟨hqv, rfl⟩
    have hn := (hqv n (by simp)).1
    have hsome := (hqv n (by simp)).2
    obtain ⟨nd, hget⟩ := get?_of_lt_len hn
    have hval : st n = some (nodeProperties nd) := by
      rw [hcor n hsome, hget]
      rfl
    refine ⟨st, true, ?_, ?_, rfl⟩
    · rw [nodePropsBody_eq st hget, mset_eq_self hval]
    · intro m hm
      simp only [if_pos rfl] at hm
      rcases List.mem_append.mp hm with hm | hm
      · exact hqv m (by simp [hm])
      · exact ⟨(mem_successors.mp hm).1, hsucc n hsome m hm⟩

theorem calc_rerun (g : Graph) (rules : List ExtraRule)
    (fl : MetaMap NodeFlags) (rank : Nat → Nat)
    (hrb : ∀ n, n < g.length → rank n < g.length)
    (hrk : ∀ j, j < g.length → ∀ i ∈ nodeInputs g j, rank i < rank j)
    {fuel : Nat} {cm : MetaMap FeaturesCalculator}
    (h : add_features_calculator g rules fl emptyMeta fuel = .ok ([], cm)) :
    ∃ cm2, add_features_calculator g rules fl cm
        (qMeasure g rank (get_input_nodes g)) = .ok ([], cm2) ∧
      ∀ k, cm2 k = cm k := by
  obtain ⟨hfix, hq⟩ := calc_run1_facts h
  have main := runLoop_term g (featuresCalcBody g fl rules) rank hrb hrk
    (fun q st =>
      (∀ n ∈ q, n < g.length ∧
        (n ∈ get_input_nodes g ∨ nodeInputs g n ≠ [])) ∧ st = cm)
    (fun q st hI n hn => (hI.1 n hn).1) ?_
    (qMeasure g rank (get_input_nodes g)) (get_input_nodes g) cm
    ⟨fun n hn => ⟨(mem_get_input_nodes.mp hn).1, Or.inl hn⟩, rfl⟩ (le_refl _)
  · obtain ⟨cm2, hrun, _, heq⟩ := main
    exact ⟨cm2, hrun, fun k => congrFun heq k⟩
  · rintro n rest st ⟨hqv, rfl⟩
    have hn := (hqv n (by simp)).1
    have hmem := (hqv n (by simp)).2
    by_cases hsn : (st n).isSome = true
    · refine ⟨st, true, hfix n hsn, ?_, rfl⟩
      intro m hm
      simp only [if_pos rfl] at hm
      rcases List.mem_append.mp hm with hm | hm
      · exact hqv m (by simp [hm])
      · have hms := mem_successors.mp hm
        refine ⟨hms.1, Or.inr ?_⟩
        intro hnil
        rw [hnil] at hms
        simp at hms
    · rcases hq n hmem with hst | ⟨p, hp, hpn⟩
      · exact absurd hst hsn
      · obtain ⟨nd, hget⟩ := get?_of_lt_len hn
        have hany : nd.inputs.any (fun w => (st w).isNone) = true :=
          List.any_eq_true.mpr ⟨p, by rw [← nodeInputs_eq hget]; exact hp, hpn⟩
        refine ⟨st, false, calcBody_skip hget hany, ?_, rfl⟩
        intro m hm
        simp only [if_neg (Bool.false_ne_true)] at hm
        rw [List.append_nil] at hm
        exact hqv m (by simp [hm])

theorem assocBody_cases {g : Graph} {fl : MetaMap NodeFlags} {n : Nat}
    {st st' : MetaMap SetBy} {app : Bool}
    (h : associateBody g fl n st = .ok (st', app)) :
    app = true ∧ ∃ nd, g.get? n = some nd ∧
      ((∃ v, assocDecision g fl n nd st = .ok (some v) ∧ st' = mset st n v) ∨
        (assocDecision g fl n nd st = .ok none ∧ st' = st)) := by
  unfold associateBody at h
  cases hget : g.get? n with
  | none => rw [hget] at h; cases h
  | some nd =>
      rw [hget] at h
      dsimp only at h
      cases hdec : assocDecision g fl n nd st with
      | error e => rw [hdec] at h; cases h
      | ok o =>
          cases o with
          | none =>
              rw [hdec] at h
              cases h
              exact ⟨rfl, nd, rfl, Or.inr ⟨hdec, rfl⟩⟩
          | some v =>
              rw [hdec] at h
              cases h
              exact ⟨rfl, nd, rfl, Or.inl ⟨v, hdec, rfl⟩⟩

theorem assocDecision_none_cases {g : Graph} {fl : MetaMap NodeFlags}
    {n : Nat} {nd : Node} {st : MetaMap SetBy}
    (h : assocDecision g fl n nd st = .ok none) :
    ∃ flags, fl n = some flags ∧
      ((flags.features_concatenate = true ∧
          ∃ w ∈ nd.inputs, (st w).isNone = true) ∨
        (flags.features_concatenate = false ∧
          ∃ prevId rest, nd.inputs = prevId :: rest ∧ st prevId = none)) := by
  unfold assocDecision at h
  cases hinp : nd.inputs with
  | nil => rw [hinp] at h; cases h
  | cons prevId rest =>
      rw [hinp] at h
      dsimp only at h
      cases hfl : fl n with
      | none => rw [hfl] at h; cases h
      | some flags =>
          rw [hfl] at h
          dsimp only at h
          refine ⟨flags, rfl, ?_⟩
          by_cases hcf : flags.features_concatenate = true
          · rw [if_pos hcf] at h
            by_cases hany : (prevId :: rest).any (fun w => (st w).isNone) = true
            · obtain ⟨w, hw, hwn⟩ := List.any_eq_true.mp hany
              exact Or.inl ⟨hcf, w, hw, hwn⟩
            · rw [if_neg hany] at h
              cases h
          · rw [if_neg hcf] at h
            cases hsp : st prevId with
            | none =>
                exact Or.inr ⟨Bool.eq_false_iff.mpr hcf, prevId, rest, rfl, hsp⟩
            | some pv =>
                rw [hsp] at h
                dsimp only at h
                exfalso
                cases hpg : g.get? prevId with
                | none => rw [hpg] at h; cases h
                | some prevNode =>
                    rw [hpg] at h
                    cases hpfl : fl prevId with
                    | none => rw [hpfl] at h; cases h
                    | some prevFlags =>
                        rw [hpfl] at h
                        dsimp only at h
                        repeat' split at h
                        all_goals cases h

theorem assocDecision_write_stable {g : Graph} {fl : MetaMap NodeFlags}
    {k : Nat} {ndk : Node} {st : MetaMap SetBy} {n : Nat} {w : SetBy}
    {u : SetBy}
    (hdec : assocDecision g fl k ndk st = .ok (some u)) (hn : st n = none) :
    assocDecision g fl k ndk (mset st n w) = .ok (some u) := by
  cases hinp : ndk.inputs with
  | nil =>
      rw [assocDecision_nil hinp] at hdec ⊢
      exact hdec
  | cons prevId rest =>
      unfold assocDecision at hdec ⊢
      rw [hinp] at hdec ⊢
      dsimp only at hdec ⊢
      cases hfl : fl k with
      | none => rw [hfl] at hdec; dsimp only at hdec; cases hdec
      | some flags =>
          rw [hfl] at hdec
          dsimp only at hdec
          dsimp only
          by_cases hcf : flags.features_concatenate = true
          · rw [if_pos hcf] at hdec ⊢
            by_cases hany : (prevId :: rest).any (fun x => (st x).isNone) = true
            · rw [if_pos hany] at hdec
              cases hdec
            · rw [if_neg hany] at hdec
              have hsome := preds_some_of_not_any (Bool.eq_false_iff.mpr hany)
              have hany' : (prevId :: rest).any
                  (fun x => ((mset st n w) x).isNone) = false :=
                any_isNone_false_of_some
                  (fun p hp => mset_isSome_mono (hsome p hp))
              rw [if_neg (by simp [hany'])]
              exact hdec
          · rw [if_neg hcf] at hdec ⊢
            cases hsp : st prevId with
            | none => rw [hsp] at hdec; cases hdec
            | some pv =>
                have hpn : prevId ≠ n := by
                  intro he
                  rw [he, hn] at hsp
                  cases hsp
                rw [hsp] at hdec
                rw [mset_other st n w hpn, hsp]
                exact hdec

theorem assoc_run1_facts {g : Graph} {fl : MetaMap NodeFlags} {fuel : Nat}
    {sm : MetaMap SetBy}
    (h : associate_input_features g fl emptyMeta fuel = .ok ([], sm)) :
    (∀ k, (sm k).isSome = true → ∃ nd v, g.get? k = some nd ∧
      assocDecision g fl k nd sm = .ok (some v) ∧ sm k = some v) ∧
    (∀ k, (fl k).isSome = true →
      (k ∈ get_input_nodes g ∨ nodeInputs g k ≠ []) →
      (sm k).isSome = true ∨
      (∃ nd flags, g.get? k = some nd ∧ fl k = some flags ∧
        ((flags.features_concatenate = true ∧
            ∃ w ∈ nd.inputs, (sm w).isNone = true) ∨
          (flags.features_concatenate = false ∧
            ∃ prevId rest, nd.inputs = prevId :: rest ∧ sm prevId = none)))) := by
  have main := runLoop_preserves g (associateBody g fl)
    (fun q st =>
      (∀ k, (st k).isSome = true → ∃ nd v, g.get? k = some nd ∧
        assocDecision g fl k nd st = .ok (some v) ∧ st k = some v) ∧
      (∀ k, (fl k).isSome = true →
        (k ∈ get_input_nodes g ∨ nodeInputs g k ≠ []) →
        (st k).isSome = true ∨
        (∃ nd flags, g.get? k = some nd ∧ fl k = some flags ∧
          ((flags.features_concatenate = true ∧
              ∃ w ∈ nd.inputs, (st w).isNone = true) ∨
            (flags.features_concatenate = false ∧
              ∃ prevId rest, nd.inputs = prevId :: rest ∧ st prevId = none))) ∨
        k ∈ q))
    ?_ fuel (get_input_nodes g) emptyMeta [] sm h ?_
  · refine ⟨main.1, ?_⟩
    intro k hflk hk
    rcases main.2 k hflk hk with hh | hh | hh
    · exact Or.inl hh
    · exact Or.inr hh
    · simp at hh
  · intro n rest st st' app hI hb
    obtain ⟨rfl, nd, hget, hcase⟩ := assocBody_cases hb
    rcases hcase with ⟨v, hdec, rfl⟩ | ⟨hdec, rfl⟩
    · by_cases hsn : (st n).isSome = true
      · obtain ⟨nd0, v0, hget0, hdec0, hstv0⟩ := hI.1 n hsn
        rw [hget] at hget0
        cases hget0
        rw [hdec] at hdec0
        have hv0 : v = v0 := by
          have := (Except.ok.injEq _ _).mp hdec0
          exact (Option.some.injEq _ _).mp this
        have hmeq : mset st n v = st := mset_eq_self (by rw [hstv0, hv0])
        rw [hmeq]
        refine ⟨hI.1, ?_⟩
        intro k hflk hk
        rcases hI.2 k hflk hk with hh | hh | hh
        · exact Or.inl hh
        · exact Or.inr (Or.inl hh)
        · rcases List.mem_cons.mp hh with rfl | hmem
          · exact Or.inl hsn
          · refine Or.inr (Or.inr ?_)
            simp only [if_pos rfl]
            exact List.mem_append.mpr (Or.inl hmem)
      · have hsn' : st n = none := isSome_false_eq_none hsn
        constructor
        · intro k hk
          by_cases hkn : k = n
          · subst hkn
            exact ⟨nd, v, hget, assocDecision_write_stable hdec hsn',
              mset_self st k v⟩
          · have hks : (st k).isSome = true := by
              rw [← mset_other st n v hkn]
              exact hk
            obtain ⟨ndk, u, hgetk, hdeck, hstk⟩ := hI.1 k hks
            exact ⟨ndk, u, hgetk, assocDecision_write_stable hdeck hsn',
              by rw [mset_other st n v hkn]; exact hstk⟩
        · intro k hflk hk
          rcases hI.2 k hflk hk with hh |
            ⟨ndr, flagsr, hgetr, hflr, hcase⟩ | hh
          · exact Or.inl (mset_isSome_mono hh)
          · rcases hcase with ⟨hcf, w, hw, hmiss⟩ |
              ⟨hcf, prevId, rest', hinp, hprev⟩
            · by_cases hwn : w = n
              · subst hwn
                refine Or.inr (Or.inr ?_)
                simp only [if_pos rfl]
                refine List.mem_append.mpr (Or.inr (mem_successors.mpr
                  ⟨get?_lt hgetr, ?_⟩))
                rw [nodeInputs_eq hgetr]
                exact hw
              · exact Or.inr (Or.inl ⟨ndr, flagsr, hgetr, hflr,
                  Or.inl ⟨hcf, w, hw, by
                    rw [mset_other st n v hwn]; exact hmiss⟩⟩)
            · by_cases hpn : prevId = n
              · subst hpn
                refine Or.inr (Or.inr ?_)
                simp only [if_pos rfl]
                refine List.mem_append.mpr (Or.inr (mem_successors.mpr
                  ⟨get?_lt hgetr, ?_⟩))
                rw [nodeInputs_eq hgetr, hinp]
                simp
              · exact Or.inr (Or.inl ⟨ndr, flagsr, hgetr, hflr,
                  Or.inr ⟨hcf, prevId, rest', hinp, by
                    rw [mset_other st n v hpn]; exact hprev⟩⟩)
          · rcases List.mem_cons.mp hh with rfl | hmem
            · exact Or.inl (by rw [mset_self]; rfl)
            · refine Or.inr (Or.inr ?_)
              simp only [if_pos rfl]
              exact List.mem_append.mpr (Or.inl hmem)
    · refine ⟨hI.1, ?_⟩
      intro k hflk hk
      rcases hI.2 k hflk hk with hh | hh | hh
      · exact Or.inl hh
      · exact Or.inr (Or.inl hh)
      · rcases List.mem_cons.mp hh with rfl | hmem
        · obtain ⟨flags, hfln, hcase⟩ := assocDecision_none_cases hdec
          exact Or.inr (Or.inl ⟨nd, flags, hget, hfln, hcase⟩)
        · refine Or.inr (Or.inr ?_)
          simp only [if_pos rfl]
          exact List.mem_append.mpr (Or.inl hmem)
  · constructor
    · intro k hk
      simp [emptyMeta] at hk
    · intro k hflk hk
      rcases hk with hk | hk
      · exact Or.inr (Or.inr hk)
      · cases hget : g.get? k with
        | none =>
            exfalso
            apply hk
            unfold nodeInputs
            rw [hget]
        | some nd =>
            obtain ⟨flags, hfl⟩ := Option.isSome_iff_exists.mp hflk
            rw [nodeInputs_eq hget] at hk
            cases hinp : nd.inputs with
            | nil => exact absurd hinp hk
            | cons prevId rest' =>
                by_cases hcf : flags.features_concatenate = true
                · exact Or.inr (Or.inl ⟨nd, flags, rfl, hfl,
                    Or.inl ⟨hcf, prevId, by rw [hinp]; simp, rfl⟩⟩)
                · exact Or.inr (Or.inl ⟨nd, flags, rfl, hfl,
                    Or.inr ⟨Bool.eq_false_iff.mpr hcf, prevId, rest', hinp,
                      rfl⟩⟩)

theorem assoc_rerun (g : Graph) (fl : MetaMap NodeFlags) (rank : Nat → Nat)
    (hrb : ∀ n, n < g.length → rank n < g.length)
    (hrk : ∀ j, j < g.length → ∀ i ∈ nodeInputs g j, rank i < rank j)
    (hflseeds : ∀ s ∈ get_input_nodes g, (fl s).isSome = true)
    (hflsucc : ∀ k, (fl k).isSome = true →
      ∀ w ∈ successors g k, (fl w).isSome = true)
    {fuel : Nat} {sm : MetaMap SetBy}
    (h : associate_input_features g fl emptyMeta fuel = .ok ([], sm)) :
    ∃ sm2, associate_input_features g fl sm
        (qMeasure g rank (get_input_nodes g)) = .ok ([], sm2) ∧
      ∀ k, sm2 k = sm k := by
  obtain ⟨hfix, hq⟩ := assoc_run1_facts h
  have main := runLoop_term g (associateBody g fl) rank hrb hrk
    (fun q st =>
      (∀ n ∈ q, n < g.length ∧ (fl n).isSome = true ∧
        (n ∈ get_input_nodes g ∨ nodeInputs g n ≠ [])) ∧ st = sm)
    (fun q st hI n hn => (hI.1 n hn).1) ?_
    (qMeasure g rank (get_input_nodes g)) (get_input_nodes g) sm
    ⟨fun s hs => ⟨(mem_get_input_nodes.mp hs).1, hflseeds s hs, Or.inl hs⟩,
      rfl⟩ (le_refl _)
  · obtain ⟨sm2, hrun, _, heq⟩ := main
    exact ⟨sm2, hrun, fun k => congrFun heq k⟩
  · rintro n rest st ⟨hqv, rfl⟩
    have hn := (hqv n (by simp)).1
    have hfls := (hqv n (by simp)).2.1
    have hmem := (hqv n (by simp)).2.2
    have hqv' : ∀ m ∈ rest ++ (if true then successors g n else []),
        m < g.length ∧ (fl m).isSome = true ∧
        (m ∈ get_input_nodes g ∨ nodeInputs g m ≠ []) := by
      intro m hm
      simp only [if_pos rfl] at hm
      rcases List.mem_append.mp hm with hm | hm
      · exact hqv m (by simp [hm])
      · have hms := mem_successors.mp hm
        refine ⟨hms.1, hflsucc n hfls m hm, Or.inr ?_⟩
        intro hnil
        rw [hnil] at hms
        simp at hms
    by_cases hsn : (st n).isSome = true
    · obtain ⟨nd, v, hget, hdec, hstv⟩ := hfix n hsn
      have hb : associateBody g fl n st = .ok (st, true) := by
        rw [assocBody_write hget hdec, mset_eq_self hstv]
      exact ⟨st, true, hb, hqv', rfl⟩
    · rcases hq n hfls hmem with hst | ⟨nd, flags, hget, hfln, hcase⟩
      · exact absurd hst hsn
      · rcases hcase with ⟨hcf, w, hw, hmiss⟩ |
          ⟨hcf, prevId, rest', hinp, hprev⟩
        · cases hinp : nd.inputs with
          | nil =>
              exfalso
              rw [hinp] at hw
              simp at hw
          | cons prevId rest' =>
              have hdec : assocDecision g fl n nd st = .ok none :=
                assocDecision_concat_skip hinp hfln hcf
                  (List.any_eq_true.mpr ⟨w, hw, hmiss⟩)
              exact ⟨st, true, assocBody_skip hget hdec, hqv', rfl⟩
        · have hdec : assocDecision g fl n nd st = .ok none :=
            assocDecision_first_missing hinp hfln hcf hprev
          exact ⟨st, true, assocBody_skip hget hdec, hqv', rfl⟩

/-- C8: re-running the three passes on a finite acyclic graph whose
metadata they have already migrated to completion reproduces exactly the
same flags, calculators and back references on every node. -/
theorem C8_theorem (g : Graph) (rules : List ExtraRule) (rank : Nat → Nat)
    (f1 f2 f3 : Nat) (flm : MetaMap NodeFlags)
    (cm : MetaMap FeaturesCalculator) (sm : MetaMap SetBy)
    (hrb : ∀ n, n < g.length → rank n < g.length)
    (hrk : ∀ j, j < g.length → ∀ i ∈ nodeInputs g j, rank i < rank j)
    (h1 : add_node_properties g emptyMeta f1 = .ok ([], flm))
    (h2 : add_features_calculator g rules flm emptyMeta f2 = .ok ([], cm))
    (h3 : associate_input_features g flm emptyMeta f3 = .ok ([], sm)) :
    ∃ flm2 cm2 sm2,
      add_node_properties g flm
        (qMeasure g rank (get_input_nodes g)) = .ok ([], flm2) ∧
      add_features_calculator g rules flm2 cm
        (qMeasure g rank (get_input_nodes g)) = .ok ([], cm2) ∧
      associate_input_features g flm2 sm
        (qMeasure g rank (get_input_nodes g)) = .ok ([], sm2) ∧
      (∀ k, flm2 k = flm k) ∧ (∀ k, cm2 k = cm k) ∧ (∀ k, sm2 k = sm k) := by
  obtain ⟨_, hseeds, hsucc⟩ := annot_run1_facts h1
  obtain ⟨flm2, hr1, hp1⟩ := annot_rerun g rank hrb hrk h1
  have hfe : flm2 = flm := funext hp1
  rw [hfe] at hr1
  obtain ⟨cm2, hr2, hp2⟩ := calc_rerun g rules flm rank hrb hrk h2
  obtain ⟨sm2, hr3, hp3⟩ := assoc_rerun g flm rank hrb hrk hseeds hsucc h3
  exact ⟨flm, cm2, sm2, hr1, hr2, hr3, fun _ => rfl, hp2, hp3⟩

/-- C8 witness: the three passes on gC1, already run to completion from
empty metadata, are re-run starting from their own outputs and reproduce
the same maps. -/
theorem C8_witness :
    ∃ flm2 cm2 sm2,
      add_node_properties gC1 flmC1
        (qMeasure gC1 (fun j => j) (get_input_nodes gC1)) = .ok ([], flm2) ∧
      add_features_calculator gC1 [] flm2 calcC1Map
        (qMeasure gC1 (fun j => j) (get_input_nodes gC1)) = .ok ([], cm2) ∧
      associate_input_features gC1 flm2 assocC1Map
        (qMeasure gC1 (fun j => j) (get_input_nodes gC1)) = .ok ([], sm2) ∧
      (∀ k, flm2 k = flmC1 k) ∧ (∀ k, cm2 k = calcC1Map k) ∧
      (∀ k, sm2 k = assocC1Map k) := by
  exact C8_theorem gC1 [] (fun j => j) 40 60 60 flmC1 calcC1Map assocC1Map
    (by decide) (by decide) rfl rfl rfl
